import Mathlib

/-!
Shallow embedding of the SQL data-lineage extraction engine of the
data-lineage-tracking-system repository.

The embedding mirrors, statement by statement, the JavaScript source:

* `SQLLineageParser.parseSQL` / `extractTablesAndColumns` (the table
  extraction that feeds `parserResult.tables`),
* `SQLLineageVisualizer.generateVisualizationData` together with its helpers
  `extractTableAliases`, `extractTableColumnReferences`,
  `extractJoinConditions`, `splitSelectClause`,
  `extractOriginalColumnFromExpression`, `isSQLKeyword`, `isValidColumnName`
  (all from src/unnamed/part_002), and
* `parseTableColumnRelationshipsWithAliases`, `extractTableInfoWithAliases`,
  `extractColumnsWithAliases` and the provides-edge derivation of
  `createRelationshipsFromSQL` (src/unnamed/part_003).

JavaScript regular expressions are modelled by a small backtracking
pattern-matching core (`Pat`) whose combinators reproduce the JS engine's
ordered-alternative and greedy/lazy-quantifier backtracking semantics for the
specific patterns used by the source (sequences of literals, single-character
classes under `*`/`+`, optional groups, alternation, lookahead, anchors).
Strings are lists of characters; the character classes (`\s`, `\w`, `.`) are
the ASCII restrictions of the JS classes.
-/

namespace Lineage

/-- JS `\s` whitespace class (ASCII part). -/
def jsSpace (c : Char) : Bool :=
  c = ' ' || c = '\t' || c = '\n' || c = '\r' || c = '\x0b' || c = '\x0c'

/-- First character of `[a-zA-Z_][a-zA-Z0-9_]*`. -/
def identStart (c : Char) : Bool := c.isAlpha || c = '_'

/-- Continuation character of `[a-zA-Z_][a-zA-Z0-9_]*`. -/
def identChar (c : Char) : Bool := c.isAlpha || c.isDigit || c = '_'

/-- `.` under the `s` (dotall) flag. -/
def dotAll (_ : Char) : Bool := true

/-- `.` without the `s` flag (JS: everything except line terminators). -/
def dotNoNl (c : Char) : Bool := !(c = '\n' || c = '\r')

/-- Case-insensitive character comparison (`i` flag, ASCII). -/
def charCI (a b : Char) : Bool := a.toLower == b.toLower

def lowerChars (xs : List Char) : List Char := xs.map Char.toLower

def upperChars (xs : List Char) : List Char := xs.map Char.toUpper

def strOf (xs : List Char) : String := String.mk xs

def strLower (s : String) : String := strOf (lowerChars s.data)

def strUpper (s : String) : String := strOf (upperChars s.data)

/-- JS `String.prototype.trim` (ASCII whitespace). -/
def trimWs (xs : List Char) : List Char :=
  ((xs.dropWhile (fun c => jsSpace c)).reverse.dropWhile (fun c => jsSpace c)).reverse

/-- Worker for `collapseWs`; the flag records whether the previous character
was part of a whitespace run already emitted as a single space. -/
def collapseWsAux : Bool → List Char → List Char
  | _, [] => []
  | inRun, c :: t =>
    if jsSpace c then
      if inRun then collapseWsAux true t else ' ' :: collapseWsAux true t
    else c :: collapseWsAux false t

/-- JS `replace(/\s+/g, ' ')`: collapse every whitespace run to one space. -/
def collapseWs (xs : List Char) : List Char := collapseWsAux false xs

/-- `needle` is a prefix of `hay`. -/
def isSubAt : List Char → List Char → Bool
  | [], _ => true
  | _ :: _, [] => false
  | a :: as, b :: bs => a == b && isSubAt as bs

/-- JS `String.prototype.includes` (substring containment). -/
def containsSub (needle : List Char) : List Char → Bool
  | [] => isSubAt needle []
  | c :: t => isSubAt needle (c :: t) || containsSub needle t

/-- JS `String.prototype.split('.')`. -/
def splitOnDot : List Char → List (List Char)
  | [] => [[]]
  | c :: t =>
    if c = '.' then [] :: splitOnDot t
    else
      match splitOnDot t with
      | [] => [[c]]
      | h :: r => (c :: h) :: r

/-- JS `xs.split('.').pop()`: last dot-segment (split never returns `[]`). -/
def lastDotSeg (xs : List Char) : List Char :=
  (splitOnDot xs).getLastD []

/-- Lookup in a JS object / `Map` used as a string-keyed dictionary. -/
def lookupStr (m : List (String × String)) (k : String) : Option String :=
  (m.find? (fun p => p.1 == k)).map (fun p => p.2)

/-- JS property assignment / `Map.set`: overwrite in place or append. -/
def mapSet (m : List (String × String)) (k v : String) : List (String × String) :=
  if m.any (fun p => p.1 == k) then m.map (fun p => if p.1 == k then (k, v) else p)
  else m ++ [(k, v)]

/-- Lookup in a JS object mapping table names to column arrays. -/
def lookupCols (m : List (String × List String)) (k : String) : Option (List String) :=
  (m.find? (fun p => p.1 == k)).map (fun p => p.2)

/-- `if (!m[k]) m[k] = []; if (!m[k].includes(c)) m[k].push(c)`. -/
def tcmAdd (m : List (String × List String)) (k c : String) : List (String × List String) :=
  if m.any (fun p => p.1 == k) then
    m.map (fun p => if p.1 == k then (p.1, if p.2.contains c then p.2 else p.2 ++ [c]) else p)
  else m ++ [(k, [c])]

/-- `if (!m[k]) m[k] = []; m[k].push(c)` (no duplicate check). -/
def tcmPush (m : List (String × List String)) (k c : String) : List (String × List String) :=
  if m.any (fun p => p.1 == k) then
    m.map (fun p => if p.1 == k then (p.1, p.2 ++ [c]) else p)
  else m ++ [(k, [c])]

/-- JS `Set.add`: append if absent, keeping insertion order. -/
def setAdd (l : List String) (x : String) : List String :=
  if l.contains x then l else l ++ [x]

/-! ### Backtracking pattern core

`Pat α β` matches a prefix of the input, produces a capture of type `α` and
passes the remaining input to a continuation; `none` propagates failure, which
drives backtracking exactly as in the JS regex engine (ordered alternatives,
greedy quantifiers try longest first, lazy quantifiers shortest first). -/

def Pat (α β : Type) : Type := List Char → (α → List Char → Option β) → Option β

def pPure (a : α) : Pat α β := fun xs k => k a xs

def pBind (m : Pat α β) (f : α → Pat γ β) : Pat γ β :=
  fun xs k => m xs (fun a ys => f a ys k)

def pThen (m : Pat α β) (n : Pat γ β) : Pat γ β := pBind m (fun _ => n)

def pMap (f : α → γ) (m : Pat α β) : Pat γ β := pBind m (fun a => pPure (f a))

def pAlt (m n : Pat α β) : Pat α β := fun xs k => (m xs k) <|> (n xs k)

/-- Case-insensitive literal. -/
def pLitChars : List Char → Pat Unit β
  | [] => pPure ()
  | c :: cs => fun xs k =>
    match xs with
    | [] => none
    | d :: ds => if charCI c d then pLitChars cs ds k else none

def pLitCI (s : String) : Pat Unit β := pLitChars s.data

/-- Single character of a class. -/
def pCls (p : Char → Bool) : Pat Char β := fun xs k =>
  match xs with
  | [] => none
  | c :: cs => if p c then k c cs else none

/-- Length of the maximal class run at the head of the input. -/
def countWhile (p : Char → Bool) : List Char → Nat
  | [] => 0
  | c :: cs => if p c then countWhile p cs + 1 else 0

/-- Try the candidate consumption counts in order, backtracking on failure. -/
def tryCounts (xs : List Char) (k : List Char → List Char → Option β) :
    List Nat → Option β
  | [] => none
  | n :: ns => (k (xs.take n) (xs.drop n)) <|> tryCounts xs k ns

/-- `[n, n-1, ..., 0]`. -/
def descRange : Nat → List Nat
  | 0 => [0]
  | n + 1 => (n + 1) :: descRange n

/-- `[n, n-1, ..., 1]`. -/
def descRange1 : Nat → List Nat
  | 0 => []
  | n + 1 => (n + 1) :: descRange1 n

/-- Greedy `class*`: longest first. -/
def pStarG (p : Char → Bool) : Pat (List Char) β :=
  fun xs k => tryCounts xs k (descRange (countWhile p xs))

/-- Lazy `class*?`: shortest first. -/
def pStarL (p : Char → Bool) : Pat (List Char) β :=
  fun xs k => tryCounts xs k (descRange (countWhile p xs)).reverse

/-- Greedy `class+`. -/
def pPlusG (p : Char → Bool) : Pat (List Char) β :=
  fun xs k => tryCounts xs k (descRange1 (countWhile p xs))

/-- Lazy `class+?`. -/
def pPlusL (p : Char → Bool) : Pat (List Char) β :=
  fun xs k => tryCounts xs k (descRange1 (countWhile p xs)).reverse

/-- Greedy `(...)?`: try matching first, fall back to skipping. -/
def pOpt (m : Pat α β) : Pat (Option α) β :=
  fun xs k => (m xs (fun a ys => k (some a) ys)) <|> k none xs

/-- `$` (no `m` flag: end of input). -/
def pEnd : Pat Unit β :=
  fun xs k => match xs with | [] => k () [] | _ :: _ => none

/-- `(?=...)`: zero-width atomic lookahead. -/
def pLook (m : Pat α Unit) : Pat Unit β := fun xs k =>
  match m xs (fun _ _ => some ()) with
  | some _ => k () xs
  | none => none

/-- `\s+` (ignoring the capture). -/
def pWsP : Pat Unit β := pMap (fun _ => ()) (pPlusG jsSpace)

/-- `\s*`. -/
def pWsS : Pat Unit β := pMap (fun _ => ()) (pStarG jsSpace)

/-- `[a-zA-Z_][a-zA-Z0-9_]*` (with backtracking into the star). -/
def pIdent : Pat (List Char) β :=
  pBind (pCls identStart) fun c => pMap (fun rest => c :: rest) (pStarG identChar)

/-- `[a-zA-Z_][a-zA-Z0-9_]*(?:\.[a-zA-Z_][a-zA-Z0-9_]*)?`. -/
def pDotted : Pat (List Char) β :=
  pBind pIdent fun a =>
    pAlt
      (pBind (pCls (fun c => c = '.')) fun _ =>
        pBind pIdent fun b => pPure (a ++ '.' :: b))
      (pPure a)

/-- Run a pattern anchored at the current position. -/
def runPat (m : Pat α (α × List Char)) (xs : List Char) : Option (α × List Char) :=
  m xs (fun a ys => some (a, ys))

/-- Leftmost match: try each start position in order (JS scanning). -/
def findFirstPat (m : Pat α (α × List Char)) : List Char → Option (α × List Char)
  | [] => runPat m []
  | c :: t =>
    match runPat m (c :: t) with
    | some r => some r
    | none => findFirstPat m t

/-- Leftmost match returning also the text before the match (for `replace`). -/
def findSplitPat (m : Pat α (α × List Char)) :
    List Char → Option (List Char × α × List Char)
  | [] => (runPat m []).map (fun r => ([], r.1, r.2))
  | c :: t =>
    match runPat m (c :: t) with
    | some r => some ([], r.1, r.2)
    | none => (findSplitPat m t).map (fun r => (c :: r.1, r.2.1, r.2.2))

/-- All matches in scanning order (the `g` flag): fuelled, which is exact here
because every pattern fed to it consumes at least one character. -/
def collectAux (m : Pat α (α × List Char)) : Nat → List Char → List α
  | 0, _ => []
  | fuel + 1, xs =>
    match findFirstPat m xs with
    | none => []
    | some (a, rest) => a :: collectAux m fuel rest

def collectAll (m : Pat α (α × List Char)) (xs : List Char) : List α :=
  collectAux m (xs.length + 1) xs

/-! ### The concrete patterns of the source -/

/-- `INNER\s+JOIN|LEFT\s+JOIN|RIGHT\s+JOIN|FULL\s+JOIN|JOIN`, in source order. -/
def pJoinKw : Pat Unit β :=
  pAlt (pThen (pLitCI "INNER") (pThen pWsP (pLitCI "JOIN")))
    (pAlt (pThen (pLitCI "LEFT") (pThen pWsP (pLitCI "JOIN")))
      (pAlt (pThen (pLitCI "RIGHT") (pThen pWsP (pLitCI "JOIN")))
        (pAlt (pThen (pLitCI "FULL") (pThen pWsP (pLitCI "JOIN")))
          (pLitCI "JOIN"))))

/-- `/SELECT\s+(.*?)\s+FROM/si`: capture the SELECT clause. -/
def selectFromPat : Pat (List Char) β :=
  pThen (pLitCI "SELECT") <| pThen pWsP <|
    pBind (pStarL dotAll) fun g =>
      pThen pWsP <| pThen (pLitCI "FROM") <| pPure g

def matchSelectFrom (sql : List Char) : Option (List Char) :=
  (findFirstPat selectFromPat sql).map (fun r => r.1)

/-- `/FROM\s+([a-zA-Z_][a-zA-Z0-9_]*(?:\.[a-zA-Z_][a-zA-Z0-9_]*)?)/i`. -/
def fromTblPat : Pat (List Char) β :=
  pThen (pLitCI "FROM") <| pThen pWsP <| pDotted

/-- `(?:INNER\s+JOIN|…|JOIN)\s+([a-zA-Z_][a-zA-Z0-9_]*(?:\.…)?)` (`/gi`). -/
def joinTblPat : Pat (List Char) β :=
  pThen pJoinKw <| pThen pWsP <| pDotted

/-- `/FROM\s+(dotted)\s*(?:AS\s+)?([a-zA-Z_][a-zA-Z0-9_]*)?/i`. -/
def fromAliasPat : Pat (List Char × Option (List Char)) β :=
  pThen (pLitCI "FROM") <| pThen pWsP <|
    pBind pDotted fun t =>
      pThen pWsS <|
        pBind (pOpt (pThen (pLitCI "AS") pWsP)) fun _ =>
          pBind (pOpt pIdent) fun a => pPure (t, a)

/-- The JOIN variant of `fromAliasPat` (`/gi`). -/
def joinAliasPat : Pat (List Char × Option (List Char)) β :=
  pThen pJoinKw <| pThen pWsP <|
    pBind pDotted fun t =>
      pThen pWsS <|
        pBind (pOpt (pThen (pLitCI "AS") pWsP)) fun _ =>
          pBind (pOpt pIdent) fun a => pPure (t, a)

/-- `/([a-zA-Z_][a-zA-Z0-9_]*)\s*\.\s*([a-zA-Z_][a-zA-Z0-9_]*)/g`. -/
def tblColPat : Pat (List Char × List Char) β :=
  pBind pIdent fun a =>
    pThen pWsS <| pThen (pCls (fun c => c = '.')) <| pThen pWsS <|
      pBind pIdent fun b => pPure (a, b)

/-- `/^(.*?)\s+AS\s+([a-zA-Z_][a-zA-Z0-9_]*)$/i` (no `s` flag; anchored). -/
def asEndPat : Pat (List Char × List Char) β :=
  pBind (pStarL dotNoNl) fun e =>
    pThen pWsP <| pThen (pLitCI "AS") <| pThen pWsP <|
      pBind pIdent fun a => pThen pEnd <| pPure (e, a)

def matchAsEnd (xs : List Char) : Option (List Char × List Char) :=
  (runPat asEndPat xs).map (fun r => r.1)

/-- `/\s+AS\s+[a-zA-Z_][a-zA-Z0-9_]*/i` as used by `replace(…, '')`. -/
def asRemovePat : Pat Unit β :=
  pThen pWsP <| pThen (pLitCI "AS") <| pThen pWsP <| pMap (fun _ => ()) pIdent

/-- `expr.replace(/\s+AS\s+[a-zA-Z_][a-zA-Z0-9_]*/i, '')` (first match only). -/
def replaceAsOnce (xs : List Char) : List Char :=
  match findSplitPat asRemovePat xs with
  | some (pre, _, rest) => pre ++ rest
  | none => xs

/-- `/[a-zA-Z_][a-zA-Z0-9_]*\s*\((.*?)\)/i` (no `s` flag). -/
def funcPat : Pat (List Char) β :=
  pBind pIdent fun _ =>
    pThen pWsS <| pThen (pCls (fun c => c = '(')) <|
      pBind (pStarL dotNoNl) fun g =>
        pThen (pCls (fun c => c = ')')) <| pPure g

def matchFunc (xs : List Char) : Option (List Char) :=
  (findFirstPat funcPat xs).map (fun r => r.1)

/-- `/^[a-zA-Z_][a-zA-Z0-9_]*$/.test(name)`. -/
def isFullIdent : List Char → Bool
  | [] => false
  | c :: t => identStart c && t.all identChar

/-- Terminator of part_002's WHERE regex:
`(?:\s+GROUP|\s+ORDER|\s+HAVING|\s*;|\s*$)`. -/
def whereEndAlt : Pat Unit β :=
  pAlt (pThen pWsP (pLitCI "GROUP"))
    (pAlt (pThen pWsP (pLitCI "ORDER"))
      (pAlt (pThen pWsP (pLitCI "HAVING"))
        (pAlt (pThen pWsS (pMap (fun _ => ()) (pCls (fun c => c = ';'))))
          (pThen pWsS pEnd))))

/-- `/WHERE\s+(.+?)(?:\s+GROUP|\s+ORDER|\s+HAVING|\s*;|\s*$)/si`
(part_002 line 1638). -/
def wherePat : Pat (List Char) β :=
  pThen (pLitCI "WHERE") <| pThen pWsP <|
    pBind (pPlusL dotAll) fun g => pThen whereEndAlt <| pPure g

def matchWhere (sql : List Char) : Option (List Char) :=
  (findFirstPat wherePat sql).map (fun r => r.1)

/-- `JOIN|WHERE|GROUP\s+BY|ORDER\s+BY|HAVING|LIMIT|;|$` alternatives of the
join-ON lookahead (after its mandatory `\s+`), in source order. -/
def clauseKwAlt : Pat Unit β :=
  pAlt pJoinKw
    (pAlt (pLitCI "WHERE")
      (pAlt (pThen (pLitCI "GROUP") (pThen pWsP (pLitCI "BY")))
        (pAlt (pThen (pLitCI "ORDER") (pThen pWsP (pLitCI "BY")))
          (pAlt (pLitCI "HAVING")
            (pAlt (pLitCI "LIMIT")
              (pAlt (pMap (fun _ => ()) (pCls (fun c => c = ';'))) pEnd))))))

/-- part_002 line 1768: the join-with-ON regex
`(?:…JOIN)\s+I(?:\s+AS\s+I)?\s+ON\s+(.*?)(?=\s+(?:…JOIN|WHERE|GROUP\s+BY|ORDER\s+BY|HAVING|LIMIT|;|$))`
(`/gi`), capturing the ON clause. -/
def joinOnPat : Pat (List Char) β :=
  pThen pJoinKw <| pThen pWsP <|
    pBind pIdent fun _ =>
      pBind (pOpt (pThen pWsP (pThen (pLitCI "AS") (pThen pWsP (pMap (fun _ => ()) pIdent))))) fun _ =>
        pThen pWsP <| pThen (pLitCI "ON") <| pThen pWsP <|
          pBind (pStarL dotAll) fun g =>
            pThen (pLook (pThen pWsP (clauseKwAlt : Pat Unit Unit))) <| pPure g

/-- `[a-zA-Z_][a-zA-Z0-9_]*\.[a-zA-Z_][a-zA-Z0-9_]*` (no space around the dot). -/
def dottedStrict : Pat (List Char) β :=
  pBind pIdent fun a =>
    pThen (pCls (fun c => c = '.')) <|
      pBind pIdent fun b => pPure (a ++ '.' :: b)

/-- part_002 line 1773: `/(I\.I)\s*=\s*(I\.I)/g` over an ON clause. -/
def condPat : Pat (List Char × List Char) β :=
  pBind dottedStrict fun l =>
    pThen pWsS <| pThen (pCls (fun c => c = '=')) <| pThen pWsS <|
      pBind dottedStrict fun r => pPure (l, r)

/-- `/UPDATE\s+([a-zA-Z_][a-zA-Z0-9_]*)/i`. -/
def updatePat : Pat (List Char) β :=
  pThen (pLitCI "UPDATE") <| pThen pWsP <| pIdent

/-- `/INSERT\s+INTO\s+([a-zA-Z_][a-zA-Z0-9_]*)/i`. -/
def insertPat : Pat (List Char) β :=
  pThen (pLitCI "INSERT") <| pThen pWsP <| pThen (pLitCI "INTO") <| pThen pWsP <| pIdent

/-! ### `SQLLineageParser` helpers (part_002 lines 1105–1348) -/

/-- The reserved keyword list of `isSQLKeyword` (part_002 lines 1332–1344). -/
def sqlKeywords : List String :=
  ["SELECT", "FROM", "WHERE", "JOIN", "INNER", "LEFT", "RIGHT", "FULL",
   "ON", "AND", "OR", "NOT", "NULL", "TRUE", "FALSE", "COUNT", "SUM",
   "AVG", "MIN", "MAX", "GROUP", "BY", "ORDER", "HAVING", "LIMIT",
   "DISTINCT", "AS", "CASE", "WHEN", "THEN", "ELSE", "END", "LIKE",
   "IN", "BETWEEN", "EXISTS", "ALL", "ANY", "SOME", "UNION", "INTERSECT",
   "EXCEPT", "INSERT", "UPDATE", "DELETE", "CREATE", "ALTER", "DROP",
   "TABLE", "VIEW", "INDEX", "DATABASE", "SCHEMA", "PRIMARY", "KEY",
   "FOREIGN", "REFERENCES", "CONSTRAINT", "UNIQUE", "CHECK", "DEFAULT",
   "AUTO_INCREMENT", "IDENTITY", "TIMESTAMP", "DATETIME", "DATE", "TIME",
   "VARCHAR", "CHAR", "TEXT", "INT", "INTEGER", "BIGINT", "SMALLINT",
   "DECIMAL", "NUMERIC", "FLOAT", "DOUBLE", "BOOLEAN", "BOOL"]

/-- `isSQLKeyword(word)`: `keywords.includes(word.toUpperCase())`. -/
def isSQLKeyword (w : String) : Bool := sqlKeywords.contains (strUpper w)

/-- part_002 `isValidColumnName`: full identifier shape and not a keyword. -/
def isValidColumnName (xs : List Char) : Bool :=
  isFullIdent xs && !(isSQLKeyword (strOf xs))

/-- Worker for `splitSelectClause`: the parenthesis-depth comma splitter. -/
def splitSelectClauseAux (cur : List Char) (depth : Int) : List Char → List (List Char)
  | [] => if (trimWs cur).isEmpty then [] else [trimWs cur]
  | c :: t =>
    if c = '(' then splitSelectClauseAux (cur ++ [c]) (depth + 1) t
    else if c = ')' then splitSelectClauseAux (cur ++ [c]) (depth - 1) t
    else if c = ',' then
      if depth = 0 then trimWs cur :: splitSelectClauseAux [] 0 t
      else splitSelectClauseAux (cur ++ [c]) depth t
    else splitSelectClauseAux (cur ++ [c]) depth t

/-- part_002 lines 1232–1258: split a SELECT clause on top-level commas. -/
def splitSelectClause (xs : List Char) : List (List Char) :=
  splitSelectClauseAux [] 0 xs

/-- part_002 lines 1210–1216: the `cleanExpr` of
`extractOriginalColumnFromExpression` — strip the first `AS alias` suffix,
then unwrap a function call when its parenthesized content is nonempty. -/
def eocfeCleanExpr (expr : List Char) : List Char :=
  let c1 := replaceAsOnce expr
  match matchFunc c1 with
  | some g => if g.isEmpty then c1 else g
  | none => c1

/-- part_002 lines 1208–1230: `extractOriginalColumnFromExpression(expr)`. -/
def extractOriginalColumnFromExpression (expr : List Char) : Option (List Char) :=
  let cleanExpr := eocfeCleanExpr expr
  if cleanExpr.contains '.' then some (trimWs (lastDotSeg cleanExpr))
  else if isValidColumnName cleanExpr then some cleanExpr
  else none

/-! ### `SQLLineageVisualizer` helpers (part_002 lines 1679–1795) -/

/-- part_002 lines 1741–1763: `extractTableAliases(sql)`, a lowercase-alias to
table-name dictionary built from the FROM target and every JOIN target. -/
def extractTableAliases (sql : List Char) : List (String × String) :=
  let aliases : List (String × String) := []
  let aliases :=
    match findFirstPat fromAliasPat sql with
    | some ((t, a), _) =>
      let tableName := lastDotSeg t
      let aliasName := a.getD tableName
      mapSet aliases (strOf (lowerChars aliasName)) (strOf tableName)
    | none => aliases
  (collectAll joinAliasPat sql).foldl
    (fun m r =>
      let tableName := lastDotSeg r.1
      let aliasName := r.2.getD tableName
      mapSet m (strOf (lowerChars aliasName)) (strOf tableName))
    aliases

/-- part_002 lines 1681–1705: `extractTableColumnReferences`; returns the
table→columns map and the deduplicated qualified-name list it populates. -/
def tcrStep (tableAliases : List (String × String))
    (acc : List (String × List String) × List String) (r : List Char × List Char) :
    List (String × List String) × List String :=
  let tableOrAlias := trimWs r.1
  let columnName := trimWs r.2
  let actualTableName :=
    (lookupStr tableAliases (strOf (lowerChars tableOrAlias))).getD (strOf tableOrAlias)
  let qualifiedName := actualTableName ++ "." ++ strOf columnName
  (tcmAdd acc.1 actualTableName (strOf columnName),
   if acc.2.contains qualifiedName then acc.2 else acc.2 ++ [qualifiedName])

def extractTableColumnReferences (expression : List Char)
    (tableAliases : List (String × String)) :
    List (String × List String) × List String :=
  (collectAll tblColPat expression).foldl (tcrStep tableAliases) ([], [])

/-- part_002 lines 1766–1795: `extractJoinConditions(sql, tableAliases)`. -/
def extractJoinConditions (sql : List Char) (tableAliases : List (String × String)) :
    List (String × String) :=
  (collectAll joinOnPat sql).foldl
    (fun acc onClause =>
      acc ++ (collectAll condPat onClause).map (fun r =>
        let leftParts := splitOnDot (trimWs r.1)
        let leftTableOrAlias := leftParts.headD []
        let leftColumnName := leftParts.getD 1 []
        let leftActualTable :=
          (lookupStr tableAliases (strOf (lowerChars leftTableOrAlias))).getD
            (strOf leftTableOrAlias)
        let rightParts := splitOnDot (trimWs r.2)
        let rightTableOrAlias := rightParts.headD []
        let rightColumnName := rightParts.getD 1 []
        let rightActualTable :=
          (lookupStr tableAliases (strOf (lowerChars rightTableOrAlias))).getD
            (strOf rightTableOrAlias)
        (leftActualTable ++ "." ++ strOf leftColumnName,
         rightActualTable ++ "." ++ strOf rightColumnName)))
    []

/-- The `cleanQuery` normalization of `parseSQL` (part_002 line 1117):
`sqlQuery.trim().replace(/\s+/g, ' ')`.  No comment stripping occurs. -/
def parseSQLQuery (sqlQuery : String) : String :=
  strOf (collapseWs (trimWs sqlQuery.data))

/-- The table extraction of `parseSQL` / `extractTablesAndColumns`
(part_002 lines 1142–1158): the FROM target first, then each JOIN target,
deduplicated, schema prefixes dropped.  The parser's `columns` and
`relationships` outputs are not consumed by `generateVisualizationData`
and are therefore not modelled. -/
def parseSQLTables (sqlQuery : String) : List String :=
  let sql := (parseSQLQuery sqlQuery).data
  let tables : List String := []
  let tables :=
    match findFirstPat fromTblPat sql with
    | some (g, _) =>
      let tableName := strOf (lastDotSeg g)
      if tables.contains tableName then tables else tables ++ [tableName]
    | none => tables
  (collectAll joinTblPat sql).foldl
    (fun ts g =>
      let tableName := strOf (lastDotSeg g)
      if ts.contains tableName then ts else ts ++ [tableName])
    tables

/-! ### Graph data model (the JSON node/edge shape of the source) -/

structure Node where
  id : String
  name : String
  type : String
  originalQualifiedName : Option String := none
  isAlias : Bool := false
deriving Repr, DecidableEq

structure Edge where
  source : String
  target : String
  type : String
  label : Option String := none
deriving Repr, DecidableEq

structure Graph where
  nodes : List Node
  edges : List Edge
deriving Repr, DecidableEq

/-- The mutable local state of `generateVisualizationData`: the node and edge
arrays, the shared `nodeIdCounter`, and the four dictionaries
(`nodeMap`, `columnNodeIdMap`, `aliasNodeIdMap`, `resolvedColumnAliases`)
plus the two sets (`outputColumns`, `selectedOriginalQualifiedColumns`). -/
structure St where
  nodes : List Node
  counter : Nat
  nodeMap : List (String × String)
  colMap : List (String × String)
  aliasMap : List (String × String)
  resolved : List (String × String)
  outputCols : List String
  selectedCols : List String
  edges : List Edge
deriving Repr

def mainQueryNodeId : String := "query_main"

/-- part_002 line 1448: the unconditional Main Query node. -/
def queryNode : Node := { id := mainQueryNodeId, name := "Main Query", type := "query" }

/-- part_002 lines 1438–1449: initial state of `generateVisualizationData`. -/
def gvInit : St :=
  { nodes := [queryNode], counter := 0, nodeMap := [("main_query", mainQueryNodeId)],
    colMap := [], aliasMap := [], resolved := [], outputCols := [], selectedCols := [],
    edges := [] }

/-- part_002 lines 1455–1459: one Table node per parser table. -/
def addTableNodeStep (s : St) (tableName : String) : St :=
  let nodeId := "table_" ++ toString s.counter
  { s with
    counter := s.counter + 1
    nodes := s.nodes ++ [{ id := nodeId, name := tableName, type := "table" }]
    nodeMap := mapSet s.nodeMap (strLower tableName) nodeId }

def addTableNodes (s : St) (tables : List String) : St :=
  tables.foldl addTableNodeStep s

/-- part_002 lines 1467–1481: one Column node per new qualified column. -/
def addQualColNodeStep (s : St) (q : String) : St :=
  if (lookupStr s.colMap (strLower q)).isSome then s
  else
    let parts := splitOnDot q.data
    let tableName := strOf (parts.headD [])
    let columnName := strOf (parts.getD 1 [])
    let nodeId := "col_" ++ toString s.counter
    { s with
      counter := s.counter + 1
      nodes := s.nodes ++ [{ id := nodeId, name := tableName ++ " > " ++ columnName,
                             type := "column", originalQualifiedName := some q }]
      colMap := mapSet s.colMap (strLower q) nodeId }

def addQualColNodes (s : St) (qs : List String) : St :=
  qs.foldl addQualColNodeStep s

/-- part_002 lines 1513–1520 / 1537–1542 / 1548–1552: create a simple column
node (keyed and displayed by its bare name) unless one already exists. -/
def addSimpleColNode (s : St) (icStr : String) : St :=
  if (lookupStr s.colMap (strLower icStr)).isSome then s
  else
    let nodeId := "col_" ++ toString s.counter
    { s with counter := s.counter + 1
             nodes := s.nodes ++ [{ id := nodeId, name := icStr, type := "column",
                                    originalQualifiedName := some icStr }]
             colMap := mapSet s.colMap (strLower icStr) nodeId }

/-- part_002 lines 1492–1556: process one SELECT-clause item. -/
def processSelectPart (tableAliases : List (String × String)) (s : St)
    (part : List Char) : St :=
  let trimmedPart := trimWs part
  match matchAsEnd trimmedPart with
  | some (orig, aliasIdent) =>
    let originalExpr := trimWs orig
    let aliasName := strLower (strOf (trimWs aliasIdent))
    let originalRefs := (extractTableColumnReferences originalExpr tableAliases).2
    let s1 : St :=
      match originalRefs.head? with
      | some r0 =>
        let originalQualifiedName := strLower r0
        { s with resolved := mapSet s.resolved originalQualifiedName aliasName
                 selectedCols := setAdd s.selectedCols originalQualifiedName }
      | none =>
        match extractOriginalColumnFromExpression originalExpr with
        | some ic =>
          let icStr := strOf ic
          let s2 := addSimpleColNode s icStr
          { s2 with selectedCols := setAdd s2.selectedCols (strLower icStr) }
        | none => s
    { s1 with outputCols := setAdd s1.outputCols aliasName }
  | none =>
    let originalRefs := (extractTableColumnReferences trimmedPart tableAliases).2
    match originalRefs.head? with
    | some r0 =>
      let originalQualifiedName := strLower r0
      { s with selectedCols := setAdd s.selectedCols originalQualifiedName
               outputCols := setAdd s.outputCols originalQualifiedName }
    | none =>
      match extractOriginalColumnFromExpression trimmedPart with
      | some ic =>
        let icStr := strOf ic
        let s2 := addSimpleColNode s icStr
        { s2 with selectedCols := setAdd s2.selectedCols (strLower icStr)
                  outputCols := setAdd s2.outputCols (strLower icStr) }
      | none =>
        if trimmedPart = "*".data then
          addSimpleColNode { s with outputCols := setAdd s.outputCols "*" } "*"
        else s

def processSelectParts (s : St) (tableAliases : List (String × String))
    (parts : List (List Char)) : St :=
  parts.foldl (processSelectPart tableAliases) s

/-- part_002 lines 1559–1584: alias nodes for aliased outputs and the
`flows_to` edges into the Main Query node. -/
def outputColStep (s : St) (outputName : String) : St :=
  let isAliasNode := s.resolved.any (fun p => p.2 == outputName)
  if isAliasNode && !((lookupStr s.aliasMap outputName).isSome) then
    let nodeId := "alias_" ++ toString s.counter
    { s with counter := s.counter + 1
             nodes := s.nodes ++ [{ id := nodeId, name := outputName, type := "column",
                                    isAlias := true }]
             aliasMap := mapSet s.aliasMap outputName nodeId
             edges := s.edges ++ [{ source := nodeId, target := mainQueryNodeId,
                                    type := "flows_to" }] }
  else if !isAliasNode && (lookupStr s.colMap outputName).isSome
      && !(s.selectedCols.contains outputName) then
    match lookupStr s.colMap outputName with
    | some colId =>
      { s with edges := s.edges ++ [{ source := colId, target := mainQueryNodeId,
                                      type := "flows_to" }] }
    | none => s
  else if outputName == "*" && (lookupStr s.colMap "*").isSome then
    match lookupStr s.colMap "*" with
    | some colId =>
      { s with edges := s.edges ++ [{ source := colId, target := mainQueryNodeId,
                                      type := "flows_to" }] }
    | none => s
  else s

def addOutputEdges (s : St) : St := s.outputCols.foldl outputColStep s

/-- One column of a `provides` entry (part_002 lines 1590–1596). -/
def providesColStep (tableName tableNodeId : String) (s2 : St) (columnName : String) : St :=
  let qualifiedColumnName := tableName ++ "." ++ columnName
  match lookupStr s2.colMap (strLower qualifiedColumnName) with
  | some colId =>
    { s2 with edges := s2.edges ++ [{ source := tableNodeId, target := colId,
                                      type := "provides" }] }
  | none => s2

/-- part_002 lines 1586–1598: `provides` edges table→qualified column. -/
def providesStep (s : St) (entry : String × List String) : St :=
  match lookupStr s.nodeMap (strLower entry.1) with
  | none => s
  | some tableNodeId => entry.2.foldl (providesColStep entry.1 tableNodeId) s

def addProvidesEdges (s : St) (tcr : List (String × List String)) : St :=
  tcr.foldl providesStep s

/-- part_002 lines 1601–1622: `flows_to` edges for the selected columns,
through their alias node when one exists. -/
def selectedColStep (s : St) (q : String) : St :=
  match lookupStr s.colMap q with
  | none => s
  | some colId =>
    match lookupStr s.resolved q with
    | some aliasName =>
      match lookupStr s.aliasMap aliasName with
      | some aliasId =>
        { s with edges := s.edges ++ [{ source := colId, target := aliasId,
                                        type := "flows_to" }] }
      | none => s
    | none =>
      if s.outputCols.contains q || s.outputCols.contains (strOf (lastDotSeg q.data)) then
        if s.edges.any (fun e => e.source == colId && e.target == mainQueryNodeId
            && e.type == "flows_to") then s
        else
          { s with edges := s.edges ++ [{ source := colId, target := mainQueryNodeId,
                                          type := "flows_to" }] }
      else s

def addSelectedEdges (s : St) : St := s.selectedCols.foldl selectedColStep s

/-- part_002 lines 1624–1635: the two symmetric `uses` edges per resolvable
join condition, each labelled `on_join`. -/
def joinUsesStep (s : St) (cond : String × String) : St :=
  match lookupStr s.colMap (strLower cond.1), lookupStr s.colMap (strLower cond.2) with
  | some leftId, some rightId =>
    { s with edges := s.edges ++
        [{ source := leftId, target := rightId, type := "uses", label := some "on_join" },
         { source := rightId, target := leftId, type := "uses", label := some "on_join" }] }
  | _, _ => s

def addJoinUses (s : St) (conds : List (String × String)) : St :=
  conds.foldl joinUsesStep s

/-- One constrained column (part_002 lines 1642–1647). -/
def constrainColStep (s2 : St) (q : String) : St :=
  match lookupStr s2.colMap (strLower q) with
  | some colId =>
    { s2 with edges := s2.edges ++ [{ source := colId, target := mainQueryNodeId,
                                      type := "constrains" }] }
  | none => s2

/-- part_002 lines 1638–1648: `constrains` edges from WHERE-clause columns. -/
def addWhereConstrains (s : St) (sql : List Char)
    (tableAliases : List (String × String)) : St :=
  match matchWhere sql with
  | none => s
  | some w => ((extractTableColumnReferences w tableAliases).2).foldl constrainColStep s

/-- part_002 lines 1650–1661: the UPDATE `modifies` edge (only when the
update target already has a table node). -/
def addUpdateModifies (s : St) (sql : List Char) : St :=
  if containsSub "UPDATE".data (upperChars sql) then
    match findFirstPat updatePat sql with
    | some (t, _) =>
      match lookupStr s.nodeMap (strOf (lowerChars t)) with
      | some tid =>
        { s with edges := s.edges ++ [{ source := mainQueryNodeId, target := tid,
                                        type := "modifies" }] }
      | none => s
    | none => s
  else s

/-- part_002 lines 1663–1673: the INSERT INTO `modifies` edge. -/
def addInsertModifies (s : St) (sql : List Char) : St :=
  if containsSub "INSERT INTO".data (upperChars sql) then
    match findFirstPat insertPat sql with
    | some (t, _) =>
      match lookupStr s.nodeMap (strOf (lowerChars t)) with
      | some tid =>
        { s with edges := s.edges ++ [{ source := mainQueryNodeId, target := tid,
                                        type := "modifies" }] }
      | none => s
    | none => s
  else s

/-! ### The pipeline, stage by stage, exactly in source order.  Note that the
visualizer runs on the raw `sqlQuery`, not on the parser's `cleanQuery`. -/

def gvAfterTables (parserTables : List String) : St :=
  addTableNodes gvInit parserTables

/-- The single call `extractTableColumnReferences(sqlQuery, tableAliases, tableColumnReferences, allQualifiedColumnNames)` of line 1464. -/
def gvTcr (sqlQuery : String) : List (String × List String) × List String :=
  extractTableColumnReferences sqlQuery.data (extractTableAliases sqlQuery.data)

def gvAfterQualCols (sqlQuery : String) (parserTables : List String) : St :=
  addQualColNodes (gvAfterTables parserTables) (gvTcr sqlQuery).2

/-- Lines 1484–1485: the split SELECT clause (empty when SELECT…FROM is absent). -/
def gvSelectParts (sqlQuery : String) : List (List Char) :=
  match matchSelectFrom sqlQuery.data with
  | some c => splitSelectClause c
  | none => []

def gvAfterSelect (sqlQuery : String) (parserTables : List String) : St :=
  processSelectParts (gvAfterQualCols sqlQuery parserTables)
    (extractTableAliases sqlQuery.data) (gvSelectParts sqlQuery)

def gvAfterOutput (sqlQuery : String) (parserTables : List String) : St :=
  addOutputEdges (gvAfterSelect sqlQuery parserTables)

def gvAfterProvides (sqlQuery : String) (parserTables : List String) : St :=
  addProvidesEdges (gvAfterOutput sqlQuery parserTables) (gvTcr sqlQuery).1

def gvAfterSelected (sqlQuery : String) (parserTables : List String) : St :=
  addSelectedEdges (gvAfterProvides sqlQuery parserTables)

def gvAfterJoins (sqlQuery : String) (parserTables : List String) : St :=
  addJoinUses (gvAfterSelected sqlQuery parserTables)
    (extractJoinConditions sqlQuery.data (extractTableAliases sqlQuery.data))

def gvAfterWhere (sqlQuery : String) (parserTables : List String) : St :=
  addWhereConstrains (gvAfterJoins sqlQuery parserTables) sqlQuery.data
    (extractTableAliases sqlQuery.data)

def gvAfterUpdate (sqlQuery : String) (parserTables : List String) : St :=
  addUpdateModifies (gvAfterWhere sqlQuery parserTables) sqlQuery.data

def gvFinal (sqlQuery : String) (parserTables : List String) : St :=
  addInsertModifies (gvAfterUpdate sqlQuery parserTables) sqlQuery.data

/-- part_002 lines 1437–1676: `generateVisualizationData(sqlQuery, parserResult)`.
Only `parserResult.tables` is read by the source function, so the parser result
is passed as its table list. -/
def generateVisualizationData (sqlQuery : String) (parserTables : List String) : Graph :=
  { nodes := (gvFinal sqlQuery parserTables).nodes,
    edges := (gvFinal sqlQuery parserTables).edges }

/-! ### part_003: the alias-aware table/column relationship extractor -/

/-- `GROUP\s+BY\s+(.*?)(?:\s+HAVING|\s+ORDER\s+BY|\s+LIMIT|\s*;|\s*$)` terminator. -/
def groupByEndAlt : Pat Unit β :=
  pAlt (pThen pWsP (pLitCI "HAVING"))
    (pAlt (pThen pWsP (pThen (pLitCI "ORDER") (pThen pWsP (pLitCI "BY"))))
      (pAlt (pThen pWsP (pLitCI "LIMIT"))
        (pAlt (pThen pWsS (pMap (fun _ => ()) (pCls (fun c => c = ';'))))
          (pThen pWsS pEnd))))

/-- `/GROUP\s+BY\s+(.*?)(?:…)/si`. -/
def groupByPat : Pat (List Char) β :=
  pThen (pLitCI "GROUP") <| pThen pWsP <| pThen (pLitCI "BY") <| pThen pWsP <|
    pBind (pStarL dotAll) fun g => pThen groupByEndAlt <| pPure g

/-- `(?:\s+LIMIT|\s*;|\s*$)`. -/
def orderByEndAlt : Pat Unit β :=
  pAlt (pThen pWsP (pLitCI "LIMIT"))
    (pAlt (pThen pWsS (pMap (fun _ => ()) (pCls (fun c => c = ';'))))
      (pThen pWsS pEnd))

/-- `/ORDER\s+BY\s+(.*?)(?:\s+LIMIT|\s*;|\s*$)/si`. -/
def orderByPat : Pat (List Char) β :=
  pThen (pLitCI "ORDER") <| pThen pWsP <| pThen (pLitCI "BY") <| pThen pWsP <|
    pBind (pStarL dotAll) fun g => pThen orderByEndAlt <| pPure g

/-- `(?:\s+ORDER\s+BY|\s+LIMIT|\s*;|\s*$)`. -/
def havingEndAlt : Pat Unit β :=
  pAlt (pThen pWsP (pThen (pLitCI "ORDER") (pThen pWsP (pLitCI "BY"))))
    (pAlt (pThen pWsP (pLitCI "LIMIT"))
      (pAlt (pThen pWsS (pMap (fun _ => ()) (pCls (fun c => c = ';'))))
        (pThen pWsS pEnd)))

/-- `/HAVING\s+(.*?)(?:…)/si`. -/
def havingPat : Pat (List Char) β :=
  pThen (pLitCI "HAVING") <| pThen pWsP <|
    pBind (pStarL dotAll) fun g => pThen havingEndAlt <| pPure g

/-- part_003 WHERE terminator:
`(?:\s+GROUP\s+BY|\s+ORDER\s+BY|\s+HAVING|\s+LIMIT|\s*;|\s*$)`. -/
def whereP3EndAlt : Pat Unit β :=
  pAlt (pThen pWsP (pThen (pLitCI "GROUP") (pThen pWsP (pLitCI "BY"))))
    (pAlt (pThen pWsP (pThen (pLitCI "ORDER") (pThen pWsP (pLitCI "BY"))))
      (pAlt (pThen pWsP (pLitCI "HAVING"))
        (pAlt (pThen pWsP (pLitCI "LIMIT"))
          (pAlt (pThen pWsS (pMap (fun _ => ()) (pCls (fun c => c = ';'))))
            (pThen pWsS pEnd)))))

/-- part_003 line 823: `/WHERE\s+(.*?)(?:…)/si`. -/
def whereP3Pat : Pat (List Char) β :=
  pThen (pLitCI "WHERE") <| pThen pWsP <|
    pBind (pStarL dotAll) fun g => pThen whereP3EndAlt <| pPure g

/-- part_003 line 847 lookahead:
`(?=\s+(?:…JOIN)|WHERE|GROUP\s+BY|ORDER\s+BY|HAVING|LIMIT|;|$)` — here the
`\s+` binds only to the JOIN alternative. -/
def joinOnP3Stop : Pat Unit Unit :=
  pAlt (pThen pWsP pJoinKw)
    (pAlt (pLitCI "WHERE")
      (pAlt (pThen (pLitCI "GROUP") (pThen pWsP (pLitCI "BY")))
        (pAlt (pThen (pLitCI "ORDER") (pThen pWsP (pLitCI "BY")))
          (pAlt (pLitCI "HAVING")
            (pAlt (pLitCI "LIMIT")
              (pAlt (pMap (fun _ => ()) (pCls (fun c => c = ';'))) pEnd))))))

/-- part_003 line 847: `(?:…JOIN)\s+I(?:\s+(?:AS\s+)?I)?\s+ON\s+(.*?)(?=…)`,
capturing the ON clause (the alias may appear with or without `AS` here). -/
def joinOnP3Pat : Pat (List Char) β :=
  pThen pJoinKw <| pThen pWsP <|
    pBind pIdent fun _ =>
      pBind (pOpt (pThen pWsP
          (pThen (pOpt (pThen (pLitCI "AS") pWsP)) (pMap (fun _ => ()) pIdent)))) fun _ =>
        pThen pWsP <| pThen (pLitCI "ON") <| pThen pWsP <|
          pBind (pStarL dotAll) fun g =>
            pThen (pLook joinOnP3Stop) <| pPure g

/-- part_003 line 602: `/^(.*?)\s+AS\s+([a-zA-Z_][a-zA-Z0-9_]*)/i`
(anchored at the start only). -/
def asStartPat : Pat (List Char × List Char) β :=
  pBind (pStarL dotNoNl) fun e =>
    pThen pWsP <| pThen (pLitCI "AS") <| pThen pWsP <|
      pBind pIdent fun a => pPure (e, a)

def matchAsStart (xs : List Char) : Option (List Char × List Char) :=
  (runPat asStartPat xs).map (fun r => r.1)

/-- A `{ tableName, alias, fullName }` record of part_003's
`extractTableInfoWithAliases` (the `TableReference` of the spec). -/
structure TableInfo where
  tableName : String
  aliasKey : String
  fullName : String
deriving Repr, DecidableEq

/-- part_003 lines 534–571: `extractTableInfoWithAliases(sql)`; the FROM
target first, then JOIN targets deduplicated by table name; aliases are
stored lowercased. -/
def extractTableInfoWithAliases (sql : List Char) : List TableInfo :=
  let tableInfo : List TableInfo := []
  let tableInfo :=
    match findFirstPat fromAliasPat sql with
    | some ((t, a), _) =>
      let fullTableName := strOf t
      let tableName := strOf (lastDotSeg t)
      let aliasName := (a.map strOf).getD tableName
      tableInfo ++ [{ tableName := tableName, aliasKey := strLower aliasName,
                      fullName := fullTableName }]
    | none => tableInfo
  (collectAll joinAliasPat sql).foldl
    (fun ti r =>
      let fullTableName := strOf r.1
      let tableName := strOf (lastDotSeg r.1)
      let aliasName := (r.2.map strOf).getD tableName
      if ti.any (fun t => t.tableName == tableName) then ti
      else ti ++ [{ tableName := tableName, aliasKey := strLower aliasName,
                    fullName := fullTableName }])
    tableInfo

/-- part_003 lines 266–280: `isValidColumnName` (trims its argument first). -/
def isValidColumnNameP3 (name : List Char) : Bool :=
  let name := trimWs name
  isFullIdent name && !(isSQLKeyword (strOf name))

/-- part_003 lines 634–659: `extractColumnNamesFromExpression`; every
qualified reference contributes its column part, otherwise a whole-expression
bare identifier counts. -/
def extractColumnNamesFromExpression (expression : List Char)
    (_aliasToTableMap : List (String × String)) : List String :=
  let columns := (collectAll tblColPat expression).map (fun r => strOf r.2)
  if columns.isEmpty then
    if isFullIdent expression then [strOf expression] else []
  else columns

/-- part_003 lines 574–631: `extractColumnsWithAliases(sql)` — the column/alias
name list used for the `column_i` nodes. -/
def extractColumnsWithAliases (sql : List Char) : List String :=
  match matchSelectFrom sql with
  | none => []
  | some selectClause =>
    let tableInfo := extractTableInfoWithAliases sql
    let aliasToTableMap := tableInfo.foldl (fun m t => mapSet m t.aliasKey t.tableName) []
    let parts := splitSelectClause selectClause
    let columns := parts.foldl
      (fun (columns : List String) part =>
        let trimmedPart := trimWs part
        if trimmedPart = "*".data then columns
        else
          let asHandled :=
            if containsSub " AS ".data (upperChars trimmedPart) then
              match matchAsStart trimmedPart with
              | some (srcExpr, aliasIdent) =>
                let sourceExpr := trimWs srcExpr
                let aliasName := strOf (trimWs aliasIdent)
                let columns := columns ++ [aliasName]
                some ((extractColumnNamesFromExpression sourceExpr aliasToTableMap).foldl
                  (fun cs c => if cs.contains c then cs else cs ++ [c]) columns)
              | none => none
            else none
          match asHandled with
          | some columns => columns
          | none =>
            (extractColumnNamesFromExpression trimmedPart aliasToTableMap).foldl
              (fun cs c => if cs.contains c then cs else cs ++ [c]) columns)
      []
    columns.foldl (fun acc c => if acc.contains c then acc else acc ++ [c]) []

/-- part_003 lines 798–818: `extractTableColumnReferencesWithAliases`
(the fallback table name here is the lowercased alias, unlike part_002). -/
def extractTableColumnReferencesWithAliases (expression : List Char)
    (aliasToTableMap : List (String × String))
    (tableColumnMap : List (String × List String)) : List (String × List String) :=
  (collectAll tblColPat expression).foldl
    (fun m r =>
      let tableOrAlias := strOf (lowerChars r.1)
      let columnName := strOf r.2
      let actualTableName := (lookupStr aliasToTableMap tableOrAlias).getD tableOrAlias
      tcmAdd m actualTableName columnName)
    tableColumnMap

/-- part_003 lines 821–853: `extractColumnsFromClausesWithAliases`. -/
def extractColumnsFromClausesWithAliases (sql : List Char)
    (aliasToTableMap : List (String × String))
    (tableColumnMap : List (String × List String)) : List (String × List String) :=
  let m := tableColumnMap
  let m :=
    match (findFirstPat whereP3Pat sql).map (fun r => r.1) with
    | some w => extractTableColumnReferencesWithAliases w aliasToTableMap m
    | none => m
  let m :=
    match (findFirstPat groupByPat sql).map (fun r => r.1) with
    | some g => extractTableColumnReferencesWithAliases g aliasToTableMap m
    | none => m
  let m :=
    match (findFirstPat orderByPat sql).map (fun r => r.1) with
    | some o => extractTableColumnReferencesWithAliases o aliasToTableMap m
    | none => m
  let m :=
    match (findFirstPat havingPat sql).map (fun r => r.1) with
    | some h => extractTableColumnReferencesWithAliases h aliasToTableMap m
    | none => m
  (collectAll joinOnP3Pat sql).foldl
    (fun m2 onClause => extractTableColumnReferencesWithAliases onClause aliasToTableMap m2)
    m

/-- One SELECT item of `parseTableColumnRelationshipsWithAliases`
(part_003 lines 758–790): dotted references are collected through the alias
map, a bare valid identifier is attributed to the first FROM table, and `*`
is pushed for every table. -/
def ptcrSelectStep (tableInfo : List TableInfo) (aliasToTableMap : List (String × String))
    (m : List (String × List String)) (column : List Char) : List (String × List String) :=
  let trimmedColumn := trimWs column
  if trimmedColumn = "*".data then
    tableInfo.foldl (fun m2 t => tcmPush m2 t.tableName "*") m
  else
    let m := extractTableColumnReferencesWithAliases trimmedColumn aliasToTableMap m
    if !(trimmedColumn.contains '.') && isValidColumnNameP3 trimmedColumn then
      match tableInfo.head? with
      | some t0 => tcmAdd m t0.tableName (strOf trimmedColumn)
      | none => m
    else m

/-- part_003 lines 740–796: `parseTableColumnRelationshipsWithAliases(sql, tableInfo)`.
An unqualified valid SELECT item is attributed to the first FROM table. -/
def parseTableColumnRelationshipsWithAliases (sql : List Char)
    (tableInfo : List TableInfo) : List (String × List String) :=
  let aliasToTableMap := tableInfo.foldl (fun m t => mapSet m t.aliasKey t.tableName) []
  match matchSelectFrom sql with
  | none => []
  | some selectClause =>
    let columns := splitSelectClause selectClause
    let tableColumnMap := columns.foldl (ptcrSelectStep tableInfo aliasToTableMap) []
    extractColumnsFromClausesWithAliases sql aliasToTableMap tableColumnMap

/-- One column of a provides entry (part_003 lines 675–692): find the column
index case-insensitively and push the `table_i → column_j` provides edge
unless an identical (source, target, provides) edge already exists. -/
def cprColStep (tableIndex : Nat) (columns : List String) (es : List Edge)
    (columnName : String) : List Edge :=
  match columns.findIdx? (fun c => strLower c == strLower columnName) with
  | none => es
  | some columnIndex =>
    if es.any (fun x => x.source == ("table_" ++ toString tableIndex)
        && x.target == ("column_" ++ toString columnIndex) && x.type == "provides") then es
    else es ++ [{ source := "table_" ++ toString tableIndex,
                  target := "column_" ++ toString columnIndex, type := "provides" }]

/-- One entry of the provides loop (part_003 lines 672–695). -/
def cprEntryStep (tables columns : List String) (edges : List Edge)
    (entry : String × List String) : List Edge :=
  match tables.findIdx? (fun t => strLower t == strLower entry.1) with
  | none => edges
  | some tableIndex => entry.2.foldl (cprColStep tableIndex columns) edges

/-- part_003 lines 671–695 (inside `createRelationshipsFromSQL`): the
table-provides-column edges derived from a table→columns map, deduplicated
against the already-present edges. -/
def createProvidesRelationships (tableColumnMap : List (String × List String))
    (tables columns : List String) (edges0 : List Edge) : List Edge :=
  tableColumnMap.foldl (cprEntryStep tables columns) edges0

/-! ### Infrastructure lemmas -/

/-- A node with the given id exists in the list. -/
def hasId (nodes : List Node) (i : String) : Bool :=
  nodes.any (fun n => n.id == i)

theorem hasId_append_left {nodes l : List Node} {i : String}
    (h : hasId nodes i = true) : hasId (nodes ++ l) i = true := by
  simp only [hasId, List.any_append, Bool.or_eq_true]
  exact Or.inl h

theorem hasId_mem {nodes : List Node} {n : Node} (h : n ∈ nodes) :
    hasId nodes n.id = true := by
  simp only [hasId, List.any_eq_true]
  exact ⟨n, h, by simp⟩

theorem lookupStr_mem {m : List (String × String)} {k v : String}
    (h : lookupStr m k = some v) : ∃ p ∈ m, p.2 = v := by
  simp only [lookupStr, Option.map_eq_some'] at h
  obtain ⟨p, hp, hv⟩ := h
  exact ⟨p, List.mem_of_find?_eq_some hp, hv⟩

theorem mapSet_mem {m : List (String × String)} {k v : String} {p : String × String}
    (h : p ∈ mapSet m k v) : p ∈ m ∨ p = (k, v) := by
  unfold mapSet at h
  split at h
  · rcases List.mem_map.1 h with ⟨q, hq, hpq⟩
    by_cases hk : (q.1 == k) = true
    · right; rw [if_pos hk] at hpq; exact hpq.symm
    · left; rw [if_neg hk] at hpq; exact hpq ▸ hq
  · rcases List.mem_append.1 h with h1 | h1
    · exact Or.inl h1
    · exact Or.inr (List.mem_singleton.1 h1)

/-- Generic preservation of a projection along a fold. -/
theorem foldl_pres {α γ : Type} (f : St → α → St) (g : St → γ)
    (h : ∀ s x, g (f s x) = g s) :
    ∀ (xs : List α) (s : St), g (xs.foldl f s) = g s := by
  intro xs
  induction xs with
  | nil => intro s; rfl
  | cons x t ih => intro s; rw [List.foldl_cons, ih, h]

/-- Generic invariant preservation along a fold. -/
theorem foldl_inv {α : Type} (f : St → α → St) (P : St → Prop)
    (h : ∀ s x, P s → P (f s x)) :
    ∀ (xs : List α) (s : St), P s → P (xs.foldl f s) := by
  intro xs
  induction xs with
  | nil => intro s hs; exact hs
  | cons x t ih => intro s hs; exact ih (f s x) (h s x hs)

/-- Folds whose steps append nodes satisfying `P` append nodes satisfying `P`. -/
theorem foldl_nodes_ex {α : Type} (f : St → α → St) (P : Node → Prop) :
    ∀ (xs : List α) (s : St),
      (∀ s x, x ∈ xs → ∃ l, (f s x).nodes = s.nodes ++ l ∧ ∀ n ∈ l, P n) →
      ∃ l, (xs.foldl f s).nodes = s.nodes ++ l ∧ ∀ n ∈ l, P n := by
  intro xs
  induction xs with
  | nil => intro s _; exact ⟨[], by simp, by simp⟩
  | cons x t ih =>
    intro s h
    obtain ⟨l1, h1, hp1⟩ := h s x (List.mem_cons_self x t)
    obtain ⟨l2, h2, hp2⟩ := ih (f s x) (fun s2 y hy => h s2 y (List.mem_cons_of_mem x hy))
    refine ⟨l1 ++ l2, ?_, ?_⟩
    · rw [List.foldl_cons, h2, h1, List.append_assoc]
    · intro n hn
      rcases List.mem_append.1 hn with hn | hn
      exacts [hp1 n hn, hp2 n hn]

/-- Folds whose steps append edges satisfying `P` append edges satisfying `P`. -/
theorem foldl_edges_ex {α : Type} (f : St → α → St) (P : Edge → Prop) :
    ∀ (xs : List α) (s : St),
      (∀ s x, x ∈ xs → ∃ l, (f s x).edges = s.edges ++ l ∧ ∀ e ∈ l, P e) →
      ∃ l, (xs.foldl f s).edges = s.edges ++ l ∧ ∀ e ∈ l, P e := by
  intro xs
  induction xs with
  | nil => intro s _; exact ⟨[], by simp, by simp⟩
  | cons x t ih =>
    intro s h
    obtain ⟨l1, h1, hp1⟩ := h s x (List.mem_cons_self x t)
    obtain ⟨l2, h2, hp2⟩ := ih (f s x) (fun s2 y hy => h s2 y (List.mem_cons_of_mem x hy))
    refine ⟨l1 ++ l2, ?_, ?_⟩
    · rw [List.foldl_cons, h2, h1, List.append_assoc]
    · intro e he
      rcases List.mem_append.1 he with he | he
      exacts [hp1 e he, hp2 e he]

/-! ### The node-id invariant (claim C1 machinery) -/

/-- All dictionary values, the Main Query id and all edge endpoints are ids of
existing nodes. -/
def IdsOk (s : St) : Prop :=
  (∀ p ∈ s.nodeMap, hasId s.nodes p.2 = true) ∧
  (∀ p ∈ s.colMap, hasId s.nodes p.2 = true) ∧
  (∀ p ∈ s.aliasMap, hasId s.nodes p.2 = true) ∧
  hasId s.nodes mainQueryNodeId = true ∧
  (∀ e ∈ s.edges, hasId s.nodes e.source = true ∧ hasId s.nodes e.target = true)

theorem idsOk_gvInit : IdsOk gvInit := by
  refine ⟨?_, ?_, ?_, ?_, ?_⟩ <;> simp [gvInit, hasId, queryNode, mainQueryNodeId]

/-- Appending edges whose endpoints already exist preserves the invariant
(when no other field changes). -/
theorem idsOk_edges_append {s : St} (h : IdsOk s) (l : List Edge)
    (hl : ∀ e ∈ l, hasId s.nodes e.source = true ∧ hasId s.nodes e.target = true) :
    IdsOk { s with edges := s.edges ++ l } := by
  obtain ⟨h1, h2, h3, h4, h5⟩ := h
  refine ⟨h1, h2, h3, h4, ?_⟩
  intro e he
  rcases List.mem_append.1 he with he | he
  exacts [h5 e he, hl e he]

/-- Appending one node and registering its id in `colMap`. -/
theorem idsOk_colMap_node {s : St} (h : IdsOk s) (n : Node) (k : String) :
    IdsOk { s with counter := s.counter + 1, nodes := s.nodes ++ [n],
                   colMap := mapSet s.colMap k n.id } := by
  obtain ⟨h1, h2, h3, h4, h5⟩ := h
  refine ⟨?_, ?_, ?_, ?_, ?_⟩
  · intro p hp; exact hasId_append_left (h1 p hp)
  · intro p hp
    rcases mapSet_mem hp with hm | rfl
    · exact hasId_append_left (h2 p hm)
    · exact hasId_mem (List.mem_append_right _ (List.mem_singleton_self n))
  · intro p hp; exact hasId_append_left (h3 p hp)
  · exact hasId_append_left h4
  · intro e he; exact ⟨hasId_append_left (h5 e he).1, hasId_append_left (h5 e he).2⟩

/-- Appending one node and registering its id in `nodeMap`. -/
theorem idsOk_nodeMap_node {s : St} (h : IdsOk s) (n : Node) (k : String) :
    IdsOk { s with counter := s.counter + 1, nodes := s.nodes ++ [n],
                   nodeMap := mapSet s.nodeMap k n.id } := by
  obtain ⟨h1, h2, h3, h4, h5⟩ := h
  refine ⟨?_, ?_, ?_, ?_, ?_⟩
  · intro p hp
    rcases mapSet_mem hp with hm | rfl
    · exact hasId_append_left (h1 p hm)
    · exact hasId_mem (List.mem_append_right _ (List.mem_singleton_self n))
  · intro p hp; exact hasId_append_left (h2 p hp)
  · intro p hp; exact hasId_append_left (h3 p hp)
  · exact hasId_append_left h4
  · intro e he; exact ⟨hasId_append_left (h5 e he).1, hasId_append_left (h5 e he).2⟩

/-- Appending an alias node, registering it in `aliasMap` and emitting its
`flows_to` edge to the Main Query node. -/
theorem idsOk_aliasMap_node {s : St} (h : IdsOk s) (n : Node) (k : String) :
    IdsOk { s with counter := s.counter + 1, nodes := s.nodes ++ [n],
                   aliasMap := mapSet s.aliasMap k n.id,
                   edges := s.edges ++ [{ source := n.id, target := mainQueryNodeId,
                                          type := "flows_to" }] } := by
  obtain ⟨h1, h2, h3, h4, h5⟩ := h
  refine ⟨?_, ?_, ?_, ?_, ?_⟩
  · intro p hp; exact hasId_append_left (h1 p hp)
  · intro p hp; exact hasId_append_left (h2 p hp)
  · intro p hp
    rcases mapSet_mem hp with hm | rfl
    · exact hasId_append_left (h3 p hm)
    · exact hasId_mem (List.mem_append_right _ (List.mem_singleton_self n))
  · exact hasId_append_left h4
  · intro e he
    rcases List.mem_append.1 he with he | he
    · exact ⟨hasId_append_left (h5 e he).1, hasId_append_left (h5 e he).2⟩
    · rw [List.mem_singleton.1 he]
      exact ⟨hasId_mem (List.mem_append_right _ (List.mem_singleton_self n)),
             hasId_append_left h4⟩

/-! ### Character-level helper lemmas -/

theorem mem_of_mem_dropWhile {p : Char → Bool} {x : Char} :
    ∀ {l : List Char}, x ∈ l.dropWhile p → x ∈ l := by
  intro l
  induction l with
  | nil => intro h; simp at h
  | cons c t ih =>
    intro h
    rw [List.dropWhile_cons] at h
    by_cases hc : p c = true
    · rw [if_pos hc] at h; exact List.mem_cons_of_mem c (ih h)
    · rw [if_neg hc] at h; exact h

theorem mem_of_mem_trimWs {x : Char} {l : List Char} (h : x ∈ trimWs l) : x ∈ l := by
  unfold trimWs at h
  rw [List.mem_reverse] at h
  have h2 := mem_of_mem_dropWhile h
  rw [List.mem_reverse] at h2
  exact mem_of_mem_dropWhile h2

theorem splitOnDot_no_dot : ∀ (xs : List Char), ∀ l ∈ splitOnDot xs, '.' ∉ l := by
  intro xs
  induction xs with
  | nil =>
    intro l hl
    rw [List.mem_singleton.1 hl]
    simp
  | cons c t ih =>
    intro l hl
    unfold splitOnDot at hl
    by_cases hc : c = '.'
    · rw [if_pos hc] at hl
      rcases List.mem_cons.1 hl with rfl | hl
      · simp
      · exact ih l hl
    · rw [if_neg hc] at hl
      rcases hrec : splitOnDot t with _ | ⟨h0, r⟩
      · rw [hrec] at hl
        rw [List.mem_singleton.1 hl]
        intro hmem
        rcases List.mem_singleton.1 hmem with rfl
        exact hc rfl
      · rw [hrec] at hl
        rcases List.mem_cons.1 hl with rfl | hl
        · intro hmem
          rcases List.mem_cons.1 hmem with heq | hmem
          · exact hc heq.symm
          · exact ih h0 (hrec ▸ List.mem_cons_self h0 r) hmem
        · exact ih l (hrec ▸ List.mem_cons_of_mem h0 hl)

theorem getLastD_mem : ∀ (l : List (List Char)) (d : List Char), l ≠ [] → l.getLastD d ∈ l := by
  intro l
  induction l with
  | nil => intro d h; exact absurd rfl h
  | cons a t ih =>
    intro d _
    cases t with
    | nil => simp
    | cons b r =>
      have := ih d (by simp)
      simpa using Or.inr this

theorem splitOnDot_ne_nil (xs : List Char) : splitOnDot xs ≠ [] := by
  cases xs with
  | nil => simp [splitOnDot]
  | cons c t =>
    unfold splitOnDot
    by_cases hc : c = '.'
    · rw [if_pos hc]; simp
    · rw [if_neg hc]
      rcases hrec : splitOnDot t with _ | ⟨h0, r⟩ <;> simp

theorem lastDotSeg_no_dot (xs : List Char) : '.' ∉ lastDotSeg xs := by
  unfold lastDotSeg
  exact splitOnDot_no_dot xs _ (getLastD_mem _ _ (splitOnDot_ne_nil xs))

theorem contains_eq_false_of_not_mem {l : List Char} {c : Char} (h : c ∉ l) :
    l.contains c = false := by
  rw [← Bool.not_eq_true, List.contains_iff_exists_mem_beq]
  intro ⟨a, ha, hab⟩
  exact h ((beq_iff_eq.1 hab) ▸ ha)

theorem isFullIdent_no_dot {xs : List Char} (h : isFullIdent xs = true) :
    xs.contains '.' = false := by
  cases xs with
  | nil => rfl
  | cons c t =>
    simp only [isFullIdent, Bool.and_eq_true] at h
    apply contains_eq_false_of_not_mem
    intro hmem
    rcases List.mem_cons.1 hmem with heq | hmem
    · rw [← heq] at h
      exact absurd h.1 (by decide)
    · have := (List.all_eq_true.1 h.2) '.' hmem
      exact absurd this (by decide)

/-- The column name inferred by `extractOriginalColumnFromExpression` never
contains a dot: it is a last dot-segment or a validated bare identifier. -/
theorem eocfe_no_dot {e ic : List Char}
    (h : extractOriginalColumnFromExpression e = some ic) : ic.contains '.' = false := by
  unfold extractOriginalColumnFromExpression at h
  by_cases hdot : (eocfeCleanExpr e).contains '.' = true
  · rw [if_pos hdot] at h
    have : ic = trimWs (lastDotSeg (eocfeCleanExpr e)) := (Option.some.inj h).symm
    rw [this]
    apply contains_eq_false_of_not_mem
    intro hmem
    exact lastDotSeg_no_dot _ (mem_of_mem_trimWs hmem)
  · rw [if_neg hdot] at h
    by_cases hvalid : isValidColumnName (eocfeCleanExpr e) = true
    · rw [if_pos hvalid] at h
      have hic : ic = eocfeCleanExpr e := (Option.some.inj h).symm
      simp only [isValidColumnName, Bool.and_eq_true] at hvalid
      rw [hic]
      exact isFullIdent_no_dot hvalid.1
    · rw [if_neg hvalid] at h
      exact absurd h (by simp)

/-! ### Per-step shape lemmas -/

theorem contains_eq_true_of_mem {l : List Char} {c : Char} (h : c ∈ l) :
    l.contains c = true :=
  List.contains_iff_exists_mem_beq.2 ⟨c, h, beq_self_eq_true c⟩

/-- Qualified names built as `table ++ "." ++ column` contain a dot. -/
theorem concat_dot_contains (x y : String) :
    (x ++ "." ++ y).data.contains '.' = true := by
  apply contains_eq_true_of_mem
  rw [String.data_append, String.data_append]
  exact List.mem_append_left _ (List.mem_append_right _ (List.mem_singleton_self '.'))

/-- Every qualified name collected by `extractTableColumnReferences` has a dot. -/
theorem tcrStep_snd_mem {a : List (String × String)}
    {acc : List (String × List String) × List String} {r : List Char × List Char}
    {q : String} (h : q ∈ (tcrStep a acc r).2) :
    q ∈ acc.2 ∨ q.data.contains '.' = true := by
  simp only [tcrStep] at h
  split at h
  · exact Or.inl h
  · rcases List.mem_append.1 h with h1 | h1
    · exact Or.inl h1
    · rw [List.mem_singleton.1 h1]
      exact Or.inr (concat_dot_contains _ _)

theorem extractTCR_snd_dot_aux :
    ∀ (rs : List (List Char × List Char)) (a : List (String × String))
      (acc : List (String × List String) × List String),
      (∀ q ∈ acc.2, q.data.contains '.' = true) →
      ∀ q ∈ (rs.foldl (tcrStep a) acc).2, q.data.contains '.' = true := by
  intro rs
  induction rs with
  | nil => intro a acc hacc q hq; exact hacc q hq
  | cons r t ih =>
    intro a acc hacc q hq
    refine ih a (tcrStep a acc r) ?_ q hq
    intro q2 hq2
    rcases tcrStep_snd_mem hq2 with hm | hd
    · exact hacc q2 hm
    · exact hd

theorem extractTCR_snd_dot {e : List Char} {a : List (String × String)} {q : String}
    (h : q ∈ (extractTableColumnReferences e a).2) : q.data.contains '.' = true := by
  unfold extractTableColumnReferences at h
  exact extractTCR_snd_dot_aux _ a ([], []) (by simp) q h

/-! #### `addTableNodeStep` / `addTableNodes` -/

theorem addTableNodeStep_nodes (s : St) (t : String) :
    (addTableNodeStep s t).nodes =
      s.nodes ++ [{ id := "table_" ++ toString s.counter, name := t, type := "table" }] := rfl

theorem addTableNodeStep_idsOk {s : St} {t : String} (h : IdsOk s) :
    IdsOk (addTableNodeStep s t) :=
  idsOk_nodeMap_node h _ _

theorem addTableNodes_edges (ts : List String) (s : St) :
    (addTableNodes s ts).edges = s.edges :=
  foldl_pres addTableNodeStep St.edges (fun _ _ => rfl) ts s

theorem addTableNodes_colMap (ts : List String) (s : St) :
    (addTableNodes s ts).colMap = s.colMap :=
  foldl_pres addTableNodeStep St.colMap (fun _ _ => rfl) ts s

theorem addTableNodes_aliasMap (ts : List String) (s : St) :
    (addTableNodes s ts).aliasMap = s.aliasMap :=
  foldl_pres addTableNodeStep St.aliasMap (fun _ _ => rfl) ts s

theorem addTableNodes_idsOk {ts : List String} {s : St} (h : IdsOk s) :
    IdsOk (addTableNodes s ts) :=
  foldl_inv addTableNodeStep IdsOk (fun _ _ => addTableNodeStep_idsOk) ts s h

/-- Table nodes are appended in parser order, one per table, all of type
`table`. -/
theorem addTableNodes_nodes :
    ∀ (ts : List String) (s : St),
      ∃ l, (addTableNodes s ts).nodes = s.nodes ++ l ∧ l.map Node.name = ts ∧
        ∀ n ∈ l, n.type = "table" ∧ n.originalQualifiedName = none ∧ n.isAlias = false := by
  intro ts
  induction ts with
  | nil => intro s; exact ⟨[], by simp [addTableNodes], by simp, by simp⟩
  | cons t ts ih =>
    intro s
    obtain ⟨l, hl, hm, hp⟩ := ih (addTableNodeStep s t)
    refine ⟨{ id := "table_" ++ toString s.counter, name := t, type := "table" } :: l, ?_, ?_, ?_⟩
    · show (addTableNodes (addTableNodeStep s t) ts).nodes = _
      rw [hl, addTableNodeStep_nodes]
      simp
    · simp [hm]
    · intro n hn
      rcases List.mem_cons.1 hn with rfl | hn
      · exact ⟨rfl, rfl, rfl⟩
      · exact hp n hn

/-! #### `addQualColNodeStep` / `addQualColNodes` -/

theorem addQualColNodeStep_edges (s : St) (q : String) :
    (addQualColNodeStep s q).edges = s.edges := by
  unfold addQualColNodeStep; split <;> rfl

theorem addQualColNodeStep_nodeMap (s : St) (q : String) :
    (addQualColNodeStep s q).nodeMap = s.nodeMap := by
  unfold addQualColNodeStep; split <;> rfl

theorem addQualColNodeStep_aliasMap (s : St) (q : String) :
    (addQualColNodeStep s q).aliasMap = s.aliasMap := by
  unfold addQualColNodeStep; split <;> rfl

theorem addQualColNodeStep_nodes (s : St) (q : String) :
    ∃ l, (addQualColNodeStep s q).nodes = s.nodes ++ l ∧
      ∀ n ∈ l, n.type = "column" ∧ n.originalQualifiedName = some q ∧ n.isAlias = false := by
  unfold addQualColNodeStep; split
  · exact ⟨[], by simp, by simp⟩
  · refine ⟨[_], rfl, ?_⟩
    intro n hn
    rw [List.mem_singleton.1 hn]
    exact ⟨rfl, rfl, rfl⟩

theorem addQualColNodeStep_idsOk {s : St} {q : String} (h : IdsOk s) :
    IdsOk (addQualColNodeStep s q) := by
  unfold addQualColNodeStep; split
  · exact h
  · exact idsOk_colMap_node h _ _

theorem addQualColNodes_edges (qs : List String) (s : St) :
    (addQualColNodes s qs).edges = s.edges :=
  foldl_pres addQualColNodeStep St.edges (fun s2 q => addQualColNodeStep_edges s2 q) qs s

theorem addQualColNodes_nodeMap (qs : List String) (s : St) :
    (addQualColNodes s qs).nodeMap = s.nodeMap :=
  foldl_pres addQualColNodeStep St.nodeMap (fun s2 q => addQualColNodeStep_nodeMap s2 q) qs s

theorem addQualColNodes_aliasMap (qs : List String) (s : St) :
    (addQualColNodes s qs).aliasMap = s.aliasMap :=
  foldl_pres addQualColNodeStep St.aliasMap (fun s2 q => addQualColNodeStep_aliasMap s2 q) qs s

theorem addQualColNodes_idsOk {qs : List String} {s : St} (h : IdsOk s) :
    IdsOk (addQualColNodes s qs) :=
  foldl_inv addQualColNodeStep IdsOk (fun _ _ => addQualColNodeStep_idsOk) qs s h

/-- Qualified-column nodes carry a dotted `originalQualifiedName` when every
input name is dotted. -/
theorem addQualColNodes_nodes (qs : List String) (s : St)
    (hqs : ∀ q ∈ qs, q.data.contains '.' = true) :
    ∃ l, (addQualColNodes s qs).nodes = s.nodes ++ l ∧
      ∀ n ∈ l, n.type = "column" ∧ n.isAlias = false ∧
        ∃ q, n.originalQualifiedName = some q ∧ q.data.contains '.' = true := by
  refine foldl_nodes_ex addQualColNodeStep _ qs s ?_
  intro s2 q hq
  obtain ⟨l, hl, hp⟩ := addQualColNodeStep_nodes s2 q
  refine ⟨l, hl, ?_⟩
  intro n hn
  obtain ⟨h1, h2, h3⟩ := hp n hn
  exact ⟨h1, h3, q, h2, hqs q hq⟩

/-! #### `addSimpleColNode` and the SELECT loop -/

theorem addSimpleColNode_edges (s : St) (i : String) :
    (addSimpleColNode s i).edges = s.edges := by
  unfold addSimpleColNode; split <;> rfl

theorem addSimpleColNode_nodeMap (s : St) (i : String) :
    (addSimpleColNode s i).nodeMap = s.nodeMap := by
  unfold addSimpleColNode; split <;> rfl

theorem addSimpleColNode_aliasMap (s : St) (i : String) :
    (addSimpleColNode s i).aliasMap = s.aliasMap := by
  unfold addSimpleColNode; split <;> rfl

theorem addSimpleColNode_nodes (s : St) (i : String) :
    ∃ l, (addSimpleColNode s i).nodes = s.nodes ++ l ∧
      ∀ n ∈ l, n.type = "column" ∧ n.originalQualifiedName = some i ∧ n.isAlias = false := by
  unfold addSimpleColNode; split
  · exact ⟨[], by simp, by simp⟩
  · refine ⟨[_], rfl, ?_⟩
    intro n hn
    rw [List.mem_singleton.1 hn]
    exact ⟨rfl, rfl, rfl⟩

theorem addSimpleColNode_idsOk {s : St} {i : String} (h : IdsOk s) :
    IdsOk (addSimpleColNode s i) := by
  unfold addSimpleColNode; split
  · exact h
  · exact idsOk_colMap_node h _ _

theorem processSelectPart_edges (a : List (String × String)) (s : St) (p : List Char) :
    (processSelectPart a s p).edges = s.edges := by
  simp only [processSelectPart]
  split
  · split
    · rfl
    · split
      · exact addSimpleColNode_edges s _
      · rfl
  · split
    · rfl
    · split
      · exact addSimpleColNode_edges s _
      · split
        · exact addSimpleColNode_edges _ _
        · rfl

theorem processSelectPart_nodeMap (a : List (String × String)) (s : St) (p : List Char) :
    (processSelectPart a s p).nodeMap = s.nodeMap := by
  simp only [processSelectPart]
  split
  · split
    · rfl
    · split
      · exact addSimpleColNode_nodeMap s _
      · rfl
  · split
    · rfl
    · split
      · exact addSimpleColNode_nodeMap s _
      · split
        · exact addSimpleColNode_nodeMap _ _
        · rfl

theorem processSelectPart_aliasMap (a : List (String × String)) (s : St) (p : List Char) :
    (processSelectPart a s p).aliasMap = s.aliasMap := by
  simp only [processSelectPart]
  split
  · split
    · rfl
    · split
      · exact addSimpleColNode_aliasMap s _
      · rfl
  · split
    · rfl
    · split
      · exact addSimpleColNode_aliasMap s _
      · split
        · exact addSimpleColNode_aliasMap _ _
        · rfl

/-- SELECT-loop nodes are bare columns: type `column`, not aliases, and their
`originalQualifiedName` is dot-free (an inferred name or `*`). -/
theorem processSelectPart_nodes (a : List (String × String)) (s : St) (p : List Char) :
    ∃ l, (processSelectPart a s p).nodes = s.nodes ++ l ∧
      ∀ n ∈ l, n.type = "column" ∧ n.isAlias = false ∧
        ∃ q : String, n.originalQualifiedName = some q ∧ q.data.contains '.' = false := by
  simp only [processSelectPart]
  split
  · split
    · exact ⟨[], by simp, by simp⟩
    · split
      · rename_i ic heq
        obtain ⟨l, hl, hp⟩ := addSimpleColNode_nodes s (strOf ic)
        refine ⟨l, hl, ?_⟩
        intro n hn
        obtain ⟨h1, h2, h3⟩ := hp n hn
        exact ⟨h1, h3, strOf ic, h2, eocfe_no_dot heq⟩
      · exact ⟨[], by simp, by simp⟩
  · split
    · exact ⟨[], by simp, by simp⟩
    · split
      · rename_i ic heq
        obtain ⟨l, hl, hp⟩ := addSimpleColNode_nodes s (strOf ic)
        refine ⟨l, hl, ?_⟩
        intro n hn
        obtain ⟨h1, h2, h3⟩ := hp n hn
        exact ⟨h1, h3, strOf ic, h2, eocfe_no_dot heq⟩
      · split
        · obtain ⟨l, hl, hp⟩ := addSimpleColNode_nodes
            { s with outputCols := setAdd s.outputCols "*" } "*"
          refine ⟨l, hl, ?_⟩
          intro n hn
          obtain ⟨h1, h2, h3⟩ := hp n hn
          exact ⟨h1, h3, "*", h2, by decide⟩
        · exact ⟨[], by simp, by simp⟩

theorem processSelectPart_idsOk {a : List (String × String)} {s : St} {p : List Char}
    (h : IdsOk s) : IdsOk (processSelectPart a s p) := by
  simp only [processSelectPart]
  split
  · split
    · exact h
    · split
      · exact addSimpleColNode_idsOk h
      · exact h
  · split
    · exact h
    · split
      · exact addSimpleColNode_idsOk h
      · split
        · exact addSimpleColNode_idsOk h
        · exact h

theorem processSelectParts_edges (s : St) (a : List (String × String))
    (ps : List (List Char)) : (processSelectParts s a ps).edges = s.edges :=
  foldl_pres (processSelectPart a) St.edges (fun s2 p => processSelectPart_edges a s2 p) ps s

theorem processSelectParts_nodeMap (s : St) (a : List (String × String))
    (ps : List (List Char)) : (processSelectParts s a ps).nodeMap = s.nodeMap :=
  foldl_pres (processSelectPart a) St.nodeMap (fun s2 p => processSelectPart_nodeMap a s2 p) ps s

theorem processSelectParts_aliasMap (s : St) (a : List (String × String))
    (ps : List (List Char)) : (processSelectParts s a ps).aliasMap = s.aliasMap :=
  foldl_pres (processSelectPart a) St.aliasMap (fun s2 p => processSelectPart_aliasMap a s2 p) ps s

theorem processSelectParts_nodes (s : St) (a : List (String × String))
    (ps : List (List Char)) :
    ∃ l, (processSelectParts s a ps).nodes = s.nodes ++ l ∧
      ∀ n ∈ l, n.type = "column" ∧ n.isAlias = false ∧
        ∃ q : String, n.originalQualifiedName = some q ∧ q.data.contains '.' = false :=
  foldl_nodes_ex (processSelectPart a) _ ps s
    (fun s2 p _ => processSelectPart_nodes a s2 p)

theorem processSelectParts_idsOk {s : St} {a : List (String × String)}
    {ps : List (List Char)} (h : IdsOk s) : IdsOk (processSelectParts s a ps) :=
  foldl_inv (processSelectPart a) IdsOk (fun _ _ => processSelectPart_idsOk) ps s h

/-! #### `outputColStep` / `addOutputEdges` -/

theorem outputColStep_colMap (s : St) (o : String) :
    (outputColStep s o).colMap = s.colMap := by
  simp only [outputColStep]
  split
  · rfl
  · split
    · split <;> rfl
    · split
      · split <;> rfl
      · rfl

theorem outputColStep_nodeMap (s : St) (o : String) :
    (outputColStep s o).nodeMap = s.nodeMap := by
  simp only [outputColStep]
  split
  · rfl
  · split
    · split <;> rfl
    · split
      · split <;> rfl
      · rfl

theorem outputColStep_nodes (s : St) (o : String) :
    ∃ l, (outputColStep s o).nodes = s.nodes ++ l ∧
      ∀ n ∈ l, n.type = "column" ∧ n.isAlias = true ∧ n.originalQualifiedName = none := by
  simp only [outputColStep]
  split
  · refine ⟨[_], rfl, ?_⟩
    intro n hn
    rw [List.mem_singleton.1 hn]
    exact ⟨rfl, rfl, rfl⟩
  · split
    · split
      · exact ⟨[], by simp, by simp⟩
      · exact ⟨[], by simp, by simp⟩
    · split
      · split
        · exact ⟨[], by simp, by simp⟩
        · exact ⟨[], by simp, by simp⟩
      · exact ⟨[], by simp, by simp⟩

theorem outputColStep_edges (s : St) (o : String) :
    ∃ l, (outputColStep s o).edges = s.edges ++ l ∧ ∀ e ∈ l, e.type = "flows_to" := by
  simp only [outputColStep]
  split
  · refine ⟨[_], rfl, ?_⟩
    intro e he
    rw [List.mem_singleton.1 he]
  · split
    · split
      · refine ⟨[_], rfl, ?_⟩
        intro e he
        rw [List.mem_singleton.1 he]
      · exact ⟨[], by simp, by simp⟩
    · split
      · split
        · refine ⟨[_], rfl, ?_⟩
          intro e he
          rw [List.mem_singleton.1 he]
        · exact ⟨[], by simp, by simp⟩
      · exact ⟨[], by simp, by simp⟩

theorem outputColStep_idsOk {s : St} {o : String} (h : IdsOk s) :
    IdsOk (outputColStep s o) := by
  simp only [outputColStep]
  split
  · exact idsOk_aliasMap_node h _ _
  · split
    · split
      · rename_i heq
        refine idsOk_edges_append h _ ?_
        intro e he
        rw [List.mem_singleton.1 he]
        obtain ⟨p, hp, hpv⟩ := lookupStr_mem heq
        exact ⟨hpv ▸ h.2.1 p hp, h.2.2.2.1⟩
      · exact h
    · split
      · split
        · rename_i heq
          refine idsOk_edges_append h _ ?_
          intro e he
          rw [List.mem_singleton.1 he]
          obtain ⟨p, hp, hpv⟩ := lookupStr_mem heq
          exact ⟨hpv ▸ h.2.1 p hp, h.2.2.2.1⟩
        · exact h
      · exact h

theorem addOutputEdges_colMap (s : St) : (addOutputEdges s).colMap = s.colMap :=
  foldl_pres outputColStep St.colMap outputColStep_colMap s.outputCols s

theorem addOutputEdges_nodeMap (s : St) : (addOutputEdges s).nodeMap = s.nodeMap :=
  foldl_pres outputColStep St.nodeMap outputColStep_nodeMap s.outputCols s

theorem addOutputEdges_nodes (s : St) :
    ∃ l, (addOutputEdges s).nodes = s.nodes ++ l ∧
      ∀ n ∈ l, n.type = "column" ∧ n.isAlias = true ∧ n.originalQualifiedName = none :=
  foldl_nodes_ex outputColStep _ s.outputCols s (fun s2 o _ => outputColStep_nodes s2 o)

theorem addOutputEdges_edges (s : St) :
    ∃ l, (addOutputEdges s).edges = s.edges ++ l ∧ ∀ e ∈ l, e.type = "flows_to" :=
  foldl_edges_ex outputColStep _ s.outputCols s (fun s2 o _ => outputColStep_edges s2 o)

theorem addOutputEdges_idsOk {s : St} (h : IdsOk s) : IdsOk (addOutputEdges s) :=
  foldl_inv outputColStep IdsOk (fun _ _ => outputColStep_idsOk) s.outputCols s h

/-! #### `providesStep` / `addProvidesEdges` -/

theorem providesColStep_nodes (t i : String) (s : St) (c : String) :
    (providesColStep t i s c).nodes = s.nodes := by
  simp only [providesColStep]; split <;> rfl

theorem providesColStep_nodeMap (t i : String) (s : St) (c : String) :
    (providesColStep t i s c).nodeMap = s.nodeMap := by
  simp only [providesColStep]; split <;> rfl

theorem providesColStep_colMap (t i : String) (s : St) (c : String) :
    (providesColStep t i s c).colMap = s.colMap := by
  simp only [providesColStep]; split <;> rfl

theorem providesColStep_aliasMap (t i : String) (s : St) (c : String) :
    (providesColStep t i s c).aliasMap = s.aliasMap := by
  simp only [providesColStep]; split <;> rfl

theorem providesColStep_edges (t i : String) (s : St) (c : String) :
    ∃ l, (providesColStep t i s c).edges = s.edges ++ l ∧ ∀ e ∈ l, e.type = "provides" := by
  simp only [providesColStep]
  split
  · refine ⟨[_], rfl, ?_⟩
    intro e he
    rw [List.mem_singleton.1 he]
  · exact ⟨[], by simp, by simp⟩

theorem providesColStep_idsOk_aux (t i : String) :
    ∀ (cols : List String) (s : St), IdsOk s → hasId s.nodes i = true →
      IdsOk (cols.foldl (providesColStep t i) s) := by
  intro cols
  induction cols with
  | nil => intro s h _; exact h
  | cons c cs ih =>
    intro s h hi
    have hstep : IdsOk (providesColStep t i s c) := by
      simp only [providesColStep]
      split
      · rename_i heq
        refine idsOk_edges_append h _ ?_
        intro e he
        rw [List.mem_singleton.1 he]
        obtain ⟨p, hp, hpv⟩ := lookupStr_mem heq
        exact ⟨hi, hpv ▸ h.2.1 p hp⟩
      · exact h
    exact ih _ hstep (providesColStep_nodes t i s c ▸ hi)

theorem providesStep_nodes (s : St) (entry : String × List String) :
    (providesStep s entry).nodes = s.nodes := by
  simp only [providesStep]
  split
  · rfl
  · exact foldl_pres (providesColStep entry.1 _) St.nodes
      (fun s2 c => providesColStep_nodes _ _ s2 c) entry.2 s

theorem providesStep_nodeMap (s : St) (entry : String × List String) :
    (providesStep s entry).nodeMap = s.nodeMap := by
  simp only [providesStep]
  split
  · rfl
  · exact foldl_pres (providesColStep entry.1 _) St.nodeMap
      (fun s2 c => providesColStep_nodeMap _ _ s2 c) entry.2 s

theorem providesStep_colMap (s : St) (entry : String × List String) :
    (providesStep s entry).colMap = s.colMap := by
  simp only [providesStep]
  split
  · rfl
  · exact foldl_pres (providesColStep entry.1 _) St.colMap
      (fun s2 c => providesColStep_colMap _ _ s2 c) entry.2 s

theorem providesStep_aliasMap (s : St) (entry : String × List String) :
    (providesStep s entry).aliasMap = s.aliasMap := by
  simp only [providesStep]
  split
  · rfl
  · exact foldl_pres (providesColStep entry.1 _) St.aliasMap
      (fun s2 c => providesColStep_aliasMap _ _ s2 c) entry.2 s

theorem providesStep_edges (s : St) (entry : String × List String) :
    ∃ l, (providesStep s entry).edges = s.edges ++ l ∧ ∀ e ∈ l, e.type = "provides" := by
  simp only [providesStep]
  split
  · exact ⟨[], by simp, by simp⟩
  · exact foldl_edges_ex (providesColStep entry.1 _) _ entry.2 s
      (fun s2 c _ => providesColStep_edges _ _ s2 c)

theorem providesStep_idsOk {s : St} {entry : String × List String} (h : IdsOk s) :
    IdsOk (providesStep s entry) := by
  simp only [providesStep]
  split
  · exact h
  · rename_i heq
    obtain ⟨p, hp, hpv⟩ := lookupStr_mem heq
    exact providesColStep_idsOk_aux _ _ entry.2 s h (hpv ▸ h.1 p hp)

theorem addProvidesEdges_nodes (s : St) (tcr : List (String × List String)) :
    (addProvidesEdges s tcr).nodes = s.nodes :=
  foldl_pres providesStep St.nodes providesStep_nodes tcr s

theorem addProvidesEdges_nodeMap (s : St) (tcr : List (String × List String)) :
    (addProvidesEdges s tcr).nodeMap = s.nodeMap :=
  foldl_pres providesStep St.nodeMap providesStep_nodeMap tcr s

theorem addProvidesEdges_colMap (s : St) (tcr : List (String × List String)) :
    (addProvidesEdges s tcr).colMap = s.colMap :=
  foldl_pres providesStep St.colMap providesStep_colMap tcr s

theorem addProvidesEdges_aliasMap (s : St) (tcr : List (String × List String)) :
    (addProvidesEdges s tcr).aliasMap = s.aliasMap :=
  foldl_pres providesStep St.aliasMap providesStep_aliasMap tcr s

theorem addProvidesEdges_edges (s : St) (tcr : List (String × List String)) :
    ∃ l, (addProvidesEdges s tcr).edges = s.edges ++ l ∧ ∀ e ∈ l, e.type = "provides" :=
  foldl_edges_ex providesStep _ tcr s (fun s2 x _ => providesStep_edges s2 x)

theorem addProvidesEdges_idsOk {s : St} {tcr : List (String × List String)} (h : IdsOk s) :
    IdsOk (addProvidesEdges s tcr) :=
  foldl_inv providesStep IdsOk (fun _ _ => providesStep_idsOk) tcr s h

/-! #### `selectedColStep` / `addSelectedEdges` -/

theorem selectedColStep_nodes (s : St) (q : String) :
    (selectedColStep s q).nodes = s.nodes := by
  simp only [selectedColStep]
  split
  · rfl
  · split
    · split <;> rfl
    · split
      · split <;> rfl
      · rfl

theorem selectedColStep_nodeMap (s : St) (q : String) :
    (selectedColStep s q).nodeMap = s.nodeMap := by
  simp only [selectedColStep]
  split
  · rfl
  · split
    · split <;> rfl
    · split
      · split <;> rfl
      · rfl

theorem selectedColStep_colMap (s : St) (q : String) :
    (selectedColStep s q).colMap = s.colMap := by
  simp only [selectedColStep]
  split
  · rfl
  · split
    · split <;> rfl
    · split
      · split <;> rfl
      · rfl

theorem selectedColStep_aliasMap (s : St) (q : String) :
    (selectedColStep s q).aliasMap = s.aliasMap := by
  simp only [selectedColStep]
  split
  · rfl
  · split
    · split <;> rfl
    · split
      · split <;> rfl
      · rfl

theorem selectedColStep_edges (s : St) (q : String) :
    ∃ l, (selectedColStep s q).edges = s.edges ++ l ∧ ∀ e ∈ l, e.type = "flows_to" := by
  simp only [selectedColStep]
  split
  · exact ⟨[], by simp, by simp⟩
  · split
    · split
      · refine ⟨[_], rfl, ?_⟩
        intro e he
        rw [List.mem_singleton.1 he]
      · exact ⟨[], by simp, by simp⟩
    · split
      · split
        · exact ⟨[], by simp, by simp⟩
        · refine ⟨[_], rfl, ?_⟩
          intro e he
          rw [List.mem_singleton.1 he]
      · exact ⟨[], by simp, by simp⟩

theorem selectedColStep_idsOk {s : St} {q : String} (h : IdsOk s) :
    IdsOk (selectedColStep s q) := by
  simp only [selectedColStep]
  split
  · exact h
  · rename_i colId heqc
    obtain ⟨pc, hpc, hpcv⟩ := lookupStr_mem heqc
    split
    · split
      · rename_i heqa
        refine idsOk_edges_append h _ ?_
        intro e he
        rw [List.mem_singleton.1 he]
        obtain ⟨pa, hpa, hpav⟩ := lookupStr_mem heqa
        exact ⟨hpcv ▸ h.2.1 pc hpc, hpav ▸ h.2.2.1 pa hpa⟩
      · exact h
    · split
      · split
        · exact h
        · refine idsOk_edges_append h _ ?_
          intro e he
          rw [List.mem_singleton.1 he]
          exact ⟨hpcv ▸ h.2.1 pc hpc, h.2.2.2.1⟩
      · exact h

theorem addSelectedEdges_nodes (s : St) : (addSelectedEdges s).nodes = s.nodes :=
  foldl_pres selectedColStep St.nodes selectedColStep_nodes s.selectedCols s

theorem addSelectedEdges_nodeMap (s : St) : (addSelectedEdges s).nodeMap = s.nodeMap :=
  foldl_pres selectedColStep St.nodeMap selectedColStep_nodeMap s.selectedCols s

theorem addSelectedEdges_colMap (s : St) : (addSelectedEdges s).colMap = s.colMap :=
  foldl_pres selectedColStep St.colMap selectedColStep_colMap s.selectedCols s

theorem addSelectedEdges_aliasMap (s : St) : (addSelectedEdges s).aliasMap = s.aliasMap :=
  foldl_pres selectedColStep St.aliasMap selectedColStep_aliasMap s.selectedCols s

theorem addSelectedEdges_edges (s : St) :
    ∃ l, (addSelectedEdges s).edges = s.edges ++ l ∧ ∀ e ∈ l, e.type = "flows_to" :=
  foldl_edges_ex selectedColStep _ s.selectedCols s (fun s2 q _ => selectedColStep_edges s2 q)

theorem addSelectedEdges_idsOk {s : St} (h : IdsOk s) : IdsOk (addSelectedEdges s) :=
  foldl_inv selectedColStep IdsOk (fun _ _ => selectedColStep_idsOk) s.selectedCols s h

/-! #### `joinUsesStep` / `addJoinUses` -/

/-- The uses edges contributed by a condition list against a column map:
two symmetric `on_join`-labelled edges per condition whose endpoints resolve. -/
def joinUsesEdgesFor (m : List (String × String)) : List (String × String) → List Edge
  | [] => []
  | c :: cs =>
    (match lookupStr m (strLower c.1), lookupStr m (strLower c.2) with
     | some leftId, some rightId =>
       [{ source := leftId, target := rightId, type := "uses", label := some "on_join" },
        { source := rightId, target := leftId, type := "uses", label := some "on_join" }]
     | _, _ => []) ++ joinUsesEdgesFor m cs

theorem joinUsesStep_nodes (s : St) (c : String × String) :
    (joinUsesStep s c).nodes = s.nodes := by
  simp only [joinUsesStep]; split <;> rfl

theorem joinUsesStep_nodeMap (s : St) (c : String × String) :
    (joinUsesStep s c).nodeMap = s.nodeMap := by
  simp only [joinUsesStep]; split <;> rfl

theorem joinUsesStep_colMap (s : St) (c : String × String) :
    (joinUsesStep s c).colMap = s.colMap := by
  simp only [joinUsesStep]; split <;> rfl

theorem joinUsesStep_aliasMap (s : St) (c : String × String) :
    (joinUsesStep s c).aliasMap = s.aliasMap := by
  simp only [joinUsesStep]; split <;> rfl

theorem joinUsesStep_edges (s : St) (c : String × String) :
    (joinUsesStep s c).edges = s.edges ++ joinUsesEdgesFor s.colMap [c] := by
  cases h1 : lookupStr s.colMap (strLower c.1) <;>
    cases h2 : lookupStr s.colMap (strLower c.2) <;>
      simp [joinUsesStep, joinUsesEdgesFor, h1, h2]

theorem joinUsesEdgesFor_cons (m : List (String × String)) (c : String × String)
    (cs : List (String × String)) :
    joinUsesEdgesFor m (c :: cs) =
      (match lookupStr m (strLower c.1), lookupStr m (strLower c.2) with
       | some leftId, some rightId =>
         [{ source := leftId, target := rightId, type := "uses", label := some "on_join" },
          { source := rightId, target := leftId, type := "uses", label := some "on_join" }]
       | _, _ => []) ++ joinUsesEdgesFor m cs := rfl

theorem joinUsesEdgesFor_append (m : List (String × String)) :
    ∀ (cs ds : List (String × String)),
      joinUsesEdgesFor m (cs ++ ds) = joinUsesEdgesFor m cs ++ joinUsesEdgesFor m ds := by
  intro cs
  induction cs with
  | nil => intro ds; simp [joinUsesEdgesFor]
  | cons c t ih =>
    intro ds
    rw [List.cons_append, joinUsesEdgesFor_cons, joinUsesEdgesFor_cons, ih ds,
      List.append_assoc]

theorem addJoinUses_edges :
    ∀ (conds : List (String × String)) (s : St),
      (addJoinUses s conds).edges = s.edges ++ joinUsesEdgesFor s.colMap conds := by
  intro conds
  induction conds with
  | nil => intro s; simp [addJoinUses, joinUsesEdgesFor]
  | cons c t ih =>
    intro s
    show (addJoinUses (joinUsesStep s c) t).edges = _
    rw [ih, joinUsesStep_edges, joinUsesStep_colMap]
    have : joinUsesEdgesFor s.colMap (c :: t) =
        joinUsesEdgesFor s.colMap [c] ++ joinUsesEdgesFor s.colMap t := by
      have := joinUsesEdgesFor_append s.colMap [c] t
      simpa using this
    rw [this, List.append_assoc]

theorem joinUsesEdgesFor_uses (m : List (String × String)) :
    ∀ (conds : List (String × String)), ∀ e ∈ joinUsesEdgesFor m conds, e.type = "uses" := by
  intro conds
  induction conds with
  | nil => intro e he; simp [joinUsesEdgesFor] at he
  | cons c t ih =>
    intro e he
    unfold joinUsesEdgesFor at he
    rcases List.mem_append.1 he with he | he
    · revert he
      cases lookupStr m (strLower c.1) <;> cases lookupStr m (strLower c.2) <;>
        simp <;> intro h <;> rcases h with rfl | rfl <;> rfl
    · exact ih e he

theorem addJoinUses_nodes (s : St) (conds : List (String × String)) :
    (addJoinUses s conds).nodes = s.nodes :=
  foldl_pres joinUsesStep St.nodes joinUsesStep_nodes conds s

theorem addJoinUses_nodeMap (s : St) (conds : List (String × String)) :
    (addJoinUses s conds).nodeMap = s.nodeMap :=
  foldl_pres joinUsesStep St.nodeMap joinUsesStep_nodeMap conds s

theorem addJoinUses_colMap (s : St) (conds : List (String × String)) :
    (addJoinUses s conds).colMap = s.colMap :=
  foldl_pres joinUsesStep St.colMap joinUsesStep_colMap conds s

theorem joinUsesStep_idsOk {s : St} {c : String × String} (h : IdsOk s) :
    IdsOk (joinUsesStep s c) := by
  simp only [joinUsesStep]
  split
  · rename_i heql heqr
    refine idsOk_edges_append h _ ?_
    obtain ⟨pl, hpl, hplv⟩ := lookupStr_mem heql
    obtain ⟨pr, hpr, hprv⟩ := lookupStr_mem heqr
    intro e he
    rcases List.mem_cons.1 he with rfl | he
    · exact ⟨hplv ▸ h.2.1 pl hpl, hprv ▸ h.2.1 pr hpr⟩
    · rw [List.mem_singleton.1 he]
      exact ⟨hprv ▸ h.2.1 pr hpr, hplv ▸ h.2.1 pl hpl⟩
  · exact h

theorem addJoinUses_idsOk {s : St} {conds : List (String × String)} (h : IdsOk s) :
    IdsOk (addJoinUses s conds) :=
  foldl_inv joinUsesStep IdsOk (fun _ _ => joinUsesStep_idsOk) conds s h

/-! #### `constrainColStep` / `addWhereConstrains` -/

theorem constrainColStep_nodes (s : St) (q : String) :
    (constrainColStep s q).nodes = s.nodes := by
  simp only [constrainColStep]; split <;> rfl

theorem constrainColStep_nodeMap (s : St) (q : String) :
    (constrainColStep s q).nodeMap = s.nodeMap := by
  simp only [constrainColStep]; split <;> rfl

theorem constrainColStep_colMap (s : St) (q : String) :
    (constrainColStep s q).colMap = s.colMap := by
  simp only [constrainColStep]; split <;> rfl

theorem constrainColStep_edges (s : St) (q : String) :
    ∃ l, (constrainColStep s q).edges = s.edges ++ l ∧ ∀ e ∈ l, e.type = "constrains" := by
  simp only [constrainColStep]
  split
  · refine ⟨[_], rfl, ?_⟩
    intro e he
    rw [List.mem_singleton.1 he]
  · exact ⟨[], by simp, by simp⟩

theorem constrainColStep_idsOk {s : St} {q : String} (h : IdsOk s) :
    IdsOk (constrainColStep s q) := by
  simp only [constrainColStep]
  split
  · rename_i heq
    refine idsOk_edges_append h _ ?_
    intro e he
    rw [List.mem_singleton.1 he]
    obtain ⟨p, hp, hpv⟩ := lookupStr_mem heq
    exact ⟨hpv ▸ h.2.1 p hp, h.2.2.2.1⟩
  · exact h

theorem addWhereConstrains_nodes (s : St) (sql : List Char)
    (a : List (String × String)) : (addWhereConstrains s sql a).nodes = s.nodes := by
  simp only [addWhereConstrains]
  split
  · rfl
  · exact foldl_pres constrainColStep St.nodes constrainColStep_nodes _ s

theorem addWhereConstrains_nodeMap (s : St) (sql : List Char)
    (a : List (String × String)) : (addWhereConstrains s sql a).nodeMap = s.nodeMap := by
  simp only [addWhereConstrains]
  split
  · rfl
  · exact foldl_pres constrainColStep St.nodeMap constrainColStep_nodeMap _ s

theorem addWhereConstrains_colMap (s : St) (sql : List Char)
    (a : List (String × String)) : (addWhereConstrains s sql a).colMap = s.colMap := by
  simp only [addWhereConstrains]
  split
  · rfl
  · exact foldl_pres constrainColStep St.colMap constrainColStep_colMap _ s

theorem addWhereConstrains_edges (s : St) (sql : List Char)
    (a : List (String × String)) :
    ∃ l, (addWhereConstrains s sql a).edges = s.edges ++ l ∧
      ∀ e ∈ l, e.type = "constrains" := by
  simp only [addWhereConstrains]
  split
  · exact ⟨[], by simp, by simp⟩
  · exact foldl_edges_ex constrainColStep _ _ s (fun s2 q _ => constrainColStep_edges s2 q)

theorem addWhereConstrains_idsOk {s : St} {sql : List Char}
    {a : List (String × String)} (h : IdsOk s) : IdsOk (addWhereConstrains s sql a) := by
  simp only [addWhereConstrains]
  split
  · exact h
  · exact foldl_inv constrainColStep IdsOk (fun _ _ => constrainColStep_idsOk) _ s h

/-! #### `addUpdateModifies` / `addInsertModifies` -/

/-- The `modifies` edge (if any) of the UPDATE handler, as a function of the
table-node dictionary. -/
def updateModifiesEdgesFor (nodeMap : List (String × String)) (sql : List Char) :
    List Edge :=
  if containsSub "UPDATE".data (upperChars sql) then
    match findFirstPat updatePat sql with
    | some (t, _) =>
      match lookupStr nodeMap (strOf (lowerChars t)) with
      | some tid => [{ source := mainQueryNodeId, target := tid, type := "modifies" }]
      | none => []
    | none => []
  else []

/-- The `modifies` edge (if any) of the INSERT INTO handler. -/
def insertModifiesEdgesFor (nodeMap : List (String × String)) (sql : List Char) :
    List Edge :=
  if containsSub "INSERT INTO".data (upperChars sql) then
    match findFirstPat insertPat sql with
    | some (t, _) =>
      match lookupStr nodeMap (strOf (lowerChars t)) with
      | some tid => [{ source := mainQueryNodeId, target := tid, type := "modifies" }]
      | none => []
    | none => []
  else []

theorem addUpdateModifies_edges (s : St) (sql : List Char) :
    (addUpdateModifies s sql).edges = s.edges ++ updateModifiesEdgesFor s.nodeMap sql := by
  simp only [addUpdateModifies, updateModifiesEdgesFor]
  by_cases hc : containsSub "UPDATE".data (upperChars sql) = true
  · rw [if_pos hc, if_pos hc]
    cases hm : findFirstPat updatePat sql with
    | none => simp
    | some r =>
      cases hl : lookupStr s.nodeMap (strOf (lowerChars r.1)) with
      | none => simp [hl]
      | some tid => simp [hl]
  · rw [if_neg hc, if_neg hc]; simp

theorem addInsertModifies_edges (s : St) (sql : List Char) :
    (addInsertModifies s sql).edges = s.edges ++ insertModifiesEdgesFor s.nodeMap sql := by
  simp only [addInsertModifies, insertModifiesEdgesFor]
  by_cases hc : containsSub "INSERT INTO".data (upperChars sql) = true
  · rw [if_pos hc, if_pos hc]
    cases hm : findFirstPat insertPat sql with
    | none => simp
    | some r =>
      cases hl : lookupStr s.nodeMap (strOf (lowerChars r.1)) with
      | none => simp [hl]
      | some tid => simp [hl]
  · rw [if_neg hc, if_neg hc]; simp

theorem addUpdateModifies_nodes (s : St) (sql : List Char) :
    (addUpdateModifies s sql).nodes = s.nodes := by
  simp only [addUpdateModifies]
  split
  · split
    · split <;> rfl
    · rfl
  · rfl

theorem addInsertModifies_nodes (s : St) (sql : List Char) :
    (addInsertModifies s sql).nodes = s.nodes := by
  simp only [addInsertModifies]
  split
  · split
    · split <;> rfl
    · rfl
  · rfl

theorem addUpdateModifies_nodeMap (s : St) (sql : List Char) :
    (addUpdateModifies s sql).nodeMap = s.nodeMap := by
  simp only [addUpdateModifies]
  split
  · split
    · split <;> rfl
    · rfl
  · rfl

theorem updateModifiesEdgesFor_modifies (nodeMap : List (String × String))
    (sql : List Char) : ∀ e ∈ updateModifiesEdgesFor nodeMap sql, e.type = "modifies" := by
  intro e he
  simp only [updateModifiesEdgesFor] at he
  split at he
  · split at he
    · split at he
      · rw [List.mem_singleton.1 he]
      · simp at he
    · simp at he
  · simp at he

theorem insertModifiesEdgesFor_modifies (nodeMap : List (String × String))
    (sql : List Char) : ∀ e ∈ insertModifiesEdgesFor nodeMap sql, e.type = "modifies" := by
  intro e he
  simp only [insertModifiesEdgesFor] at he
  split at he
  · split at he
    · split at he
      · rw [List.mem_singleton.1 he]
      · simp at he
    · simp at he
  · simp at he

theorem addUpdateModifies_idsOk {s : St} {sql : List Char} (h : IdsOk s) :
    IdsOk (addUpdateModifies s sql) := by
  simp only [addUpdateModifies]
  split
  · split
    · split
      · rename_i heq
        refine idsOk_edges_append h _ ?_
        intro e he
        rw [List.mem_singleton.1 he]
        obtain ⟨p, hp, hpv⟩ := lookupStr_mem heq
        exact ⟨h.2.2.2.1, hpv ▸ h.1 p hp⟩
      · exact h
    · exact h
  · exact h

theorem addInsertModifies_idsOk {s : St} {sql : List Char} (h : IdsOk s) :
    IdsOk (addInsertModifies s sql) := by
  simp only [addInsertModifies]
  split
  · split
    · split
      · rename_i heq
        refine idsOk_edges_append h _ ?_
        intro e he
        rw [List.mem_singleton.1 he]
        obtain ⟨p, hp, hpv⟩ := lookupStr_mem heq
        exact ⟨h.2.2.2.1, hpv ▸ h.1 p hp⟩
      · exact h
    · exact h
  · exact h

/-! ### Pipeline-level composition lemmas -/

theorem gvFinal_idsOk (sqlQuery : String) (parserTables : List String) :
    IdsOk (gvFinal sqlQuery parserTables) :=
  addInsertModifies_idsOk (addUpdateModifies_idsOk (addWhereConstrains_idsOk
    (addJoinUses_idsOk (addSelectedEdges_idsOk (addProvidesEdges_idsOk
      (addOutputEdges_idsOk (processSelectParts_idsOk (addQualColNodes_idsOk
        (addTableNodes_idsOk idsOk_gvInit)))))))))

/-- The final node list decomposes into the query node, the table nodes (in
parser order), the qualified-column nodes, the bare/star column nodes of the
SELECT loop, and the alias nodes — in that order. -/
theorem gvFinal_nodes_decomp (sqlQuery : String) (parserTables : List String) :
    ∃ t c b a,
      (gvFinal sqlQuery parserTables).nodes = queryNode :: (t ++ (c ++ (b ++ a))) ∧
      t.map Node.name = parserTables ∧
      (∀ n ∈ t, n.type = "table" ∧ n.originalQualifiedName = none ∧ n.isAlias = false) ∧
      (∀ n ∈ c, n.type = "column" ∧ n.isAlias = false ∧
        ∃ q, n.originalQualifiedName = some q ∧ q.data.contains '.' = true) ∧
      (∀ n ∈ b, n.type = "column" ∧ n.isAlias = false ∧
        ∃ q, n.originalQualifiedName = some q ∧ q.data.contains '.' = false) ∧
      (∀ n ∈ a, n.type = "column" ∧ n.isAlias = true ∧ n.originalQualifiedName = none) := by
  obtain ⟨t, ht, htn, htp⟩ := addTableNodes_nodes parserTables gvInit
  obtain ⟨c, hc, hcp⟩ := addQualColNodes_nodes (gvTcr sqlQuery).2 (gvAfterTables parserTables)
    (fun q hq => extractTCR_snd_dot hq)
  obtain ⟨b, hb, hbp⟩ := processSelectParts_nodes (gvAfterQualCols sqlQuery parserTables)
    (extractTableAliases sqlQuery.data) (gvSelectParts sqlQuery)
  obtain ⟨a, ha, hap⟩ := addOutputEdges_nodes (gvAfterSelect sqlQuery parserTables)
  refine ⟨t, c, b, a, ?_, htn, htp, hcp, hbp, hap⟩
  show (addInsertModifies (gvAfterUpdate sqlQuery parserTables) sqlQuery.data).nodes = _
  rw [addInsertModifies_nodes]
  show (addUpdateModifies (gvAfterWhere sqlQuery parserTables) sqlQuery.data).nodes = _
  rw [addUpdateModifies_nodes]
  show (addWhereConstrains (gvAfterJoins sqlQuery parserTables) _ _).nodes = _
  rw [addWhereConstrains_nodes]
  show (addJoinUses (gvAfterSelected sqlQuery parserTables) _).nodes = _
  rw [addJoinUses_nodes]
  show (addSelectedEdges (gvAfterProvides sqlQuery parserTables)).nodes = _
  rw [addSelectedEdges_nodes]
  show (addProvidesEdges (gvAfterOutput sqlQuery parserTables) _).nodes = _
  rw [addProvidesEdges_nodes]
  show (addOutputEdges (gvAfterSelect sqlQuery parserTables)).nodes = _
  rw [ha]
  show (processSelectParts (gvAfterQualCols sqlQuery parserTables) _ _).nodes ++ a = _
  rw [hb]
  show ((addQualColNodes (gvAfterTables parserTables) _).nodes ++ b) ++ a = _
  rw [hc]
  show (((addTableNodes gvInit parserTables).nodes ++ c) ++ b) ++ a = _
  rw [ht]
  show ((([queryNode] ++ t) ++ c) ++ b) ++ a = _
  simp [List.append_assoc]

/-! ### Claim C1 — no dangling edges -/

/-- C1: for every input SQL string, every edge in the returned `LineageGraph`
has a `source` id and a `target` id that are both ids of nodes present in the
graph's node list (edges are only emitted behind existence checks). -/
theorem lineage_C1_no_dangling_edges (sqlQuery : String) (parserTables : List String) :
    ((generateVisualizationData sqlQuery parserTables).edges.all (fun e =>
        hasId (generateVisualizationData sqlQuery parserTables).nodes e.source &&
        hasId (generateVisualizationData sqlQuery parserTables).nodes e.target)) = true := by
  have h := gvFinal_idsOk sqlQuery parserTables
  rw [List.all_eq_true]
  intro e he
  have h5 := h.2.2.2.2 e he
  rw [Bool.and_eq_true]
  exact h5

/-! ### Claim C10 — exactly one query node, created unconditionally -/

/-- C10: for every input string (whatever the parser produced), the graph
contains exactly one node of kind `query`: id `query_main`, name `Main Query`,
created unconditionally first. -/
theorem lineage_C10_single_query_node (sqlQuery : String) (parserTables : List String) :
    (generateVisualizationData sqlQuery parserTables).nodes.filter
      (fun n => n.type == "query") = [queryNode] := by
  obtain ⟨t, c, b, a, hn, _, htp, hcp, hbp, hap⟩ := gvFinal_nodes_decomp sqlQuery parserTables
  show (gvFinal sqlQuery parserTables).nodes.filter (fun n => n.type == "query") = [queryNode]
  rw [hn]
  rw [List.filter_cons_of_pos (by rfl)]
  have hrest : ∀ n ∈ t ++ (c ++ (b ++ a)), ¬((n.type == "query") = true) := by
    intro n hmem
    rcases List.mem_append.1 hmem with h1 | h1
    · rw [(htp n h1).1]; simp
    · rcases List.mem_append.1 h1 with h2 | h2
      · rw [(hcp n h2).1]; simp
      · rcases List.mem_append.1 h2 with h3 | h3
        · rw [(hbp n h3).1]; simp
        · rw [(hap n h3).1]; simp
  rw [List.filter_eq_nil.2 hrest]

/-! ### Edge decomposition (claims C3 and C5) -/

theorem gvAfterSelect_edges (sqlQuery : String) (parserTables : List String) :
    (gvAfterSelect sqlQuery parserTables).edges = [] := by
  show (processSelectParts (gvAfterQualCols sqlQuery parserTables) _ _).edges = []
  rw [processSelectParts_edges]
  show (addQualColNodes (gvAfterTables parserTables) _).edges = []
  rw [addQualColNodes_edges]
  show (addTableNodes gvInit parserTables).edges = []
  rw [addTableNodes_edges]
  rfl

theorem gvAfterSelected_colMap (sqlQuery : String) (parserTables : List String) :
    (gvAfterSelected sqlQuery parserTables).colMap =
      (gvAfterSelect sqlQuery parserTables).colMap := by
  show (addSelectedEdges (gvAfterProvides sqlQuery parserTables)).colMap = _
  rw [addSelectedEdges_colMap]
  show (addProvidesEdges (gvAfterOutput sqlQuery parserTables) _).colMap = _
  rw [addProvidesEdges_colMap]
  show (addOutputEdges (gvAfterSelect sqlQuery parserTables)).colMap = _
  rw [addOutputEdges_colMap]

theorem gvAfterWhere_nodeMap (sqlQuery : String) (parserTables : List String) :
    (gvAfterWhere sqlQuery parserTables).nodeMap =
      (gvAfterTables parserTables).nodeMap := by
  show (addWhereConstrains (gvAfterJoins sqlQuery parserTables) _ _).nodeMap = _
  rw [addWhereConstrains_nodeMap]
  show (addJoinUses (gvAfterSelected sqlQuery parserTables) _).nodeMap = _
  rw [addJoinUses_nodeMap]
  show (addSelectedEdges (gvAfterProvides sqlQuery parserTables)).nodeMap = _
  rw [addSelectedEdges_nodeMap]
  show (addProvidesEdges (gvAfterOutput sqlQuery parserTables) _).nodeMap = _
  rw [addProvidesEdges_nodeMap]
  show (addOutputEdges (gvAfterSelect sqlQuery parserTables)).nodeMap = _
  rw [addOutputEdges_nodeMap]
  show (processSelectParts (gvAfterQualCols sqlQuery parserTables) _ _).nodeMap = _
  rw [processSelectParts_nodeMap]
  show (addQualColNodes (gvAfterTables parserTables) _).nodeMap = _
  rw [addQualColNodes_nodeMap]

/-- The final edge list decomposes into the per-stage contributions, in
emission order, with the stated edge kinds. -/
theorem gvFinal_edges_decomp (sqlQuery : String) (parserTables : List String) :
    ∃ lo lp ls lw,
      (gvFinal sqlQuery parserTables).edges =
        lo ++ lp ++ ls ++
          joinUsesEdgesFor (gvAfterSelect sqlQuery parserTables).colMap
            (extractJoinConditions sqlQuery.data (extractTableAliases sqlQuery.data)) ++
          lw ++ updateModifiesEdgesFor (gvAfterTables parserTables).nodeMap sqlQuery.data ++
          insertModifiesEdgesFor (gvAfterTables parserTables).nodeMap sqlQuery.data ∧
      (∀ e ∈ lo, e.type = "flows_to") ∧ (∀ e ∈ lp, e.type = "provides") ∧
      (∀ e ∈ ls, e.type = "flows_to") ∧ (∀ e ∈ lw, e.type = "constrains") := by
  obtain ⟨lo, ho, hop⟩ := addOutputEdges_edges (gvAfterSelect sqlQuery parserTables)
  obtain ⟨lp, hp, hpp⟩ := addProvidesEdges_edges (gvAfterOutput sqlQuery parserTables)
    (gvTcr sqlQuery).1
  obtain ⟨ls, hs, hsp⟩ := addSelectedEdges_edges (gvAfterProvides sqlQuery parserTables)
  obtain ⟨lw, hw, hwp⟩ := addWhereConstrains_edges (gvAfterJoins sqlQuery parserTables)
    sqlQuery.data (extractTableAliases sqlQuery.data)
  refine ⟨lo, lp, ls, lw, ?_, hop, hpp, hsp, hwp⟩
  show (addInsertModifies (gvAfterUpdate sqlQuery parserTables) sqlQuery.data).edges = _
  rw [addInsertModifies_edges]
  have hnm1 : (gvAfterUpdate sqlQuery parserTables).nodeMap =
      (gvAfterTables parserTables).nodeMap := by
    show (addUpdateModifies (gvAfterWhere sqlQuery parserTables) sqlQuery.data).nodeMap = _
    rw [addUpdateModifies_nodeMap]
    exact gvAfterWhere_nodeMap sqlQuery parserTables
  rw [hnm1]
  show (addUpdateModifies (gvAfterWhere sqlQuery parserTables) sqlQuery.data).edges ++ _ = _
  rw [addUpdateModifies_edges, gvAfterWhere_nodeMap]
  show ((addWhereConstrains (gvAfterJoins sqlQuery parserTables) _ _).edges ++ _) ++ _ = _
  rw [hw]
  show (((addJoinUses (gvAfterSelected sqlQuery parserTables) _).edges ++ lw) ++ _) ++ _ = _
  rw [addJoinUses_edges, gvAfterSelected_colMap]
  show ((((addSelectedEdges (gvAfterProvides sqlQuery parserTables)).edges ++ _) ++ lw) ++ _) ++ _ = _
  rw [hs]
  show (((((addProvidesEdges (gvAfterOutput sqlQuery parserTables) _).edges ++ ls) ++ _) ++ lw) ++ _) ++ _ = _
  rw [hp]
  show ((((((addOutputEdges (gvAfterSelect sqlQuery parserTables)).edges ++ lp) ++ ls) ++ _) ++ lw) ++ _) ++ _ = _
  rw [ho, gvAfterSelect_edges]
  simp [List.append_assoc]

/-- Edge lists all of one kind filter to nothing under a different kind. -/
theorem filter_type_nil {l : List Edge} {t1 t2 : String} (h : ∀ e ∈ l, e.type = t1)
    (hne : (t1 == t2) = false) : l.filter (fun e => e.type == t2) = [] := by
  rw [List.filter_eq_nil]
  intro e he
  rw [h e he, hne]
  simp

/-- Edge lists all of one kind are fixed by the matching filter. -/
theorem filter_type_self {l : List Edge} {t1 : String} (h : ∀ e ∈ l, e.type = t1) :
    l.filter (fun e => e.type == t1) = l := by
  rw [List.filter_eq_self]
  intro e he
  rw [h e he]
  exact beq_self_eq_true t1

/-! ### Claims C3 and C5 -/

/-- C3 (amended): the `uses` edges of the returned graph are exactly the two
symmetric `on_join`-labelled edges per extracted join condition whose two
resolved qualified columns both have column nodes; conditions are extracted
only from ON clauses the join regex recognizes. -/
theorem lineage_C3_amended (sqlQuery : String) (parserTables : List String) :
    (generateVisualizationData sqlQuery parserTables).edges.filter
        (fun e => e.type == "uses") =
      joinUsesEdgesFor (gvAfterSelect sqlQuery parserTables).colMap
        (extractJoinConditions sqlQuery.data (extractTableAliases sqlQuery.data)) := by
  obtain ⟨lo, lp, ls, lw, hE, hop, hpp, hsp, hwp⟩ := gvFinal_edges_decomp sqlQuery parserTables
  show (gvFinal sqlQuery parserTables).edges.filter _ = _
  rw [hE, List.filter_append, List.filter_append, List.filter_append,
    List.filter_append, List.filter_append, List.filter_append]
  rw [filter_type_nil hop (by decide), filter_type_nil hpp (by decide),
    filter_type_nil hsp (by decide), filter_type_nil hwp (by decide),
    filter_type_nil (updateModifiesEdgesFor_modifies _ _) (by decide),
    filter_type_nil (insertModifiesEdgesFor_modifies _ _) (by decide),
    filter_type_self (joinUsesEdgesFor_uses _ _)]
  simp

/-- C5 (amended): the `modifies` edges of the returned graph are exactly those
of the UPDATE and INSERT INTO handlers, each emitted only when the mutation
target's lowercased name resolves in the table-node dictionary (i.e. the
target also occurs as a FROM/JOIN table). -/
theorem lineage_C5_amended (sqlQuery : String) (parserTables : List String) :
    (generateVisualizationData sqlQuery parserTables).edges.filter
        (fun e => e.type == "modifies") =
      updateModifiesEdgesFor (gvAfterTables parserTables).nodeMap sqlQuery.data ++
      insertModifiesEdgesFor (gvAfterTables parserTables).nodeMap sqlQuery.data := by
  obtain ⟨lo, lp, ls, lw, hE, hop, hpp, hsp, hwp⟩ := gvFinal_edges_decomp sqlQuery parserTables
  show (gvFinal sqlQuery parserTables).edges.filter _ = _
  rw [hE, List.filter_append, List.filter_append, List.filter_append,
    List.filter_append, List.filter_append, List.filter_append]
  rw [filter_type_nil hop (by decide), filter_type_nil hpp (by decide),
    filter_type_nil hsp (by decide), filter_type_nil hwp (by decide),
    filter_type_nil (joinUsesEdgesFor_uses _ _) (by decide),
    filter_type_self (updateModifiesEdgesFor_modifies _ _),
    filter_type_self (insertModifiesEdgesFor_modifies _ _)]
  simp

/-! ### Claim C2 — alias resolution on `SELECT a.id FROM orders a` -/

/-- C2: `SELECT a.id FROM orders a` yields exactly one table node named
`orders` (none named `a`), exactly one column node — `id` qualified to
`orders` — one `provides` edge orders→id and one `flows_to` edge id→query,
and no other edges. -/
theorem lineage_C2_alias_resolution :
    (generateVisualizationData "SELECT a.id FROM orders a"
        (parseSQLTables "SELECT a.id FROM orders a")).nodes.filter
        (fun n => n.type == "table") =
      [{ id := "table_0", name := "orders", type := "table" }] ∧
    ((generateVisualizationData "SELECT a.id FROM orders a"
        (parseSQLTables "SELECT a.id FROM orders a")).nodes.all
        (fun n => n.name != "a")) = true ∧
    (generateVisualizationData "SELECT a.id FROM orders a"
        (parseSQLTables "SELECT a.id FROM orders a")).nodes.filter
        (fun n => n.type == "column") =
      [{ id := "col_1", name := "orders > id", type := "column",
         originalQualifiedName := some "orders.id" }] ∧
    (generateVisualizationData "SELECT a.id FROM orders a"
        (parseSQLTables "SELECT a.id FROM orders a")).edges =
      [{ source := "table_0", target := "col_1", type := "provides" },
       { source := "col_1", target := "query_main", type := "flows_to" }] := by
  refine ⟨by decide, by decide, by decide, by decide⟩

/-! ### Claim C3 — counterexample -/

/-- C3 (counterexample): `SELECT a.x FROM a JOIN b ON a.x = b.y` contains an
equality condition between two qualified columns in a JOIN ON clause, yet the
extractor finds no join condition (the lookahead demands whitespace plus a
following clause keyword, semicolon or end) and the graph carries zero `uses`
edges instead of the claimed two. -/
theorem lineage_C3_counterexample :
    extractJoinConditions "SELECT a.x FROM a JOIN b ON a.x = b.y".data
        (extractTableAliases "SELECT a.x FROM a JOIN b ON a.x = b.y".data) = [] ∧
    (generateVisualizationData "SELECT a.x FROM a JOIN b ON a.x = b.y"
        (parseSQLTables "SELECT a.x FROM a JOIN b ON a.x = b.y")).edges.filter
        (fun e => e.type == "uses") = [] := by
  refine ⟨by decide, by decide⟩

/-! ### Claim C4 — `SELECT * FROM t` -/

/-- C4 (counterexample): for `SELECT * FROM t` the single `*` column node
exists, but no `provides` edge is emitted at all — `*` is never a qualified
reference, so the table→column map stays empty. -/
theorem lineage_C4_counterexample :
    (generateVisualizationData "SELECT * FROM t"
        (parseSQLTables "SELECT * FROM t")).nodes.filter
        (fun n => n.type == "column") =
      [{ id := "col_1", name := "*", type := "column",
         originalQualifiedName := some "*" }] ∧
    (generateVisualizationData "SELECT * FROM t"
        (parseSQLTables "SELECT * FROM t")).edges.filter
        (fun e => e.type == "provides") = [] := by
  refine ⟨by decide, by decide⟩

/-- C4 (amended): `SELECT * FROM t` produces exactly the `t` table node, one
`*` column node and a single `flows_to` edge `*`→query — no `provides` edge
and no other column nodes. -/
theorem lineage_C4_amended :
    generateVisualizationData "SELECT * FROM t" (parseSQLTables "SELECT * FROM t") =
      { nodes := [queryNode,
                  { id := "table_0", name := "t", type := "table" },
                  { id := "col_1", name := "*", type := "column",
                    originalQualifiedName := some "*" }],
        edges := [{ source := "col_1", target := "query_main", type := "flows_to" }] } := by
  decide

/-! ### Claim C5 — counterexample -/

/-- C5 (counterexample): `UPDATE users SET status = 1` is an UPDATE statement
(the handler's substring test is true), yet the graph has no edges at all:
the target table never gets a node, so no `modifies` edge is emitted. -/
theorem lineage_C5_counterexample :
    containsSub "UPDATE".data (upperChars "UPDATE users SET status = 1".data) = true ∧
    (generateVisualizationData "UPDATE users SET status = 1"
        (parseSQLTables "UPDATE users SET status = 1")).edges = [] := by
  refine ⟨by decide, by decide⟩

/-! ### Claim C6 — comments are not stripped -/

/-- C6 (counterexample): in `-- FROM secret\nSELECT a FROM t` the text
`FROM secret` occurs only inside the `--` comment, yet it is the comment's
table that reaches the graph: the parser's table list is `["secret"]` and a
table node named `secret` is created. -/
theorem lineage_C6_counterexample :
    parseSQLTables "-- FROM secret\nSELECT a FROM t" = ["secret"] ∧
    ((generateVisualizationData "-- FROM secret\nSELECT a FROM t"
        (parseSQLTables "-- FROM secret\nSELECT a FROM t")).nodes.any
        (fun n => n.name == "secret" && n.type == "table")) = true := by
  refine ⟨by decide, by decide⟩

/-- No two adjacent whitespace characters. -/
def noDoubleWs : List Char → Bool
  | [] => true
  | [_] => true
  | a :: b :: t => !(jsSpace a && jsSpace b) && noDoubleWs (b :: t)

/-- First character, if any, is not whitespace. -/
def headNotSpace : List Char → Bool
  | [] => true
  | c :: _ => !(jsSpace c)

theorem noDoubleWs_cons_space {l : List Char} (h1 : headNotSpace l = true)
    (h2 : noDoubleWs l = true) : noDoubleWs (' ' :: l) = true := by
  cases l with
  | nil => rfl
  | cons d t =>
    simp only [noDoubleWs, Bool.and_eq_true]
    refine ⟨?_, h2⟩
    simp only [headNotSpace] at h1
    simp [h1]

theorem noDoubleWs_cons_nonspace {c : Char} {l : List Char} (hc : jsSpace c = false)
    (h2 : noDoubleWs l = true) : noDoubleWs (c :: l) = true := by
  cases l with
  | nil => rfl
  | cons d t =>
    simp only [noDoubleWs, Bool.and_eq_true]
    exact ⟨by simp [hc], h2⟩

theorem collapseWsAux_spec : ∀ (xs : List Char),
    headNotSpace (collapseWsAux true xs) = true ∧
    noDoubleWs (collapseWsAux true xs) = true ∧
    noDoubleWs (collapseWsAux false xs) = true := by
  intro xs
  induction xs with
  | nil => exact ⟨rfl, rfl, rfl⟩
  | cons c t ih =>
    obtain ⟨ih1, ih2, ih3⟩ := ih
    by_cases hc : jsSpace c = true
    · refine ⟨?_, ?_, ?_⟩
      · show headNotSpace (collapseWsAux true (c :: t)) = true
        simp only [collapseWsAux, hc, if_true]
        exact ih1
      · show noDoubleWs (collapseWsAux true (c :: t)) = true
        simp only [collapseWsAux, hc, if_true]
        exact ih2
      · show noDoubleWs (collapseWsAux false (c :: t)) = true
        simp only [collapseWsAux, hc, if_true]
        exact noDoubleWs_cons_space ih1 ih2
    · rw [Bool.not_eq_true] at hc
      refine ⟨?_, ?_, ?_⟩
      · show headNotSpace (collapseWsAux true (c :: t)) = true
        simp only [collapseWsAux, hc]
        simp [headNotSpace, hc]
      · show noDoubleWs (collapseWsAux true (c :: t)) = true
        simp only [collapseWsAux, hc]
        simp only [Bool.false_eq_true, if_false]
        exact noDoubleWs_cons_nonspace hc ih3
      · show noDoubleWs (collapseWsAux false (c :: t)) = true
        simp only [collapseWsAux, hc]
        simp only [Bool.false_eq_true, if_false]
        exact noDoubleWs_cons_nonspace hc ih3

/-- C6 (amended): before clause matching `parseSQL` only trims and collapses
whitespace runs — every normalized query is free of double whitespace — while
`--` comments are not stripped: the comment marker survives normalization
(and, per the counterexample, comment text can contribute tables and edges). -/
theorem lineage_C6_amended :
    (∀ s : String, noDoubleWs (parseSQLQuery s).data = true) ∧
    containsSub "--".data (parseSQLQuery "-- FROM hidden\nSELECT x FROM t").data = true := by
  constructor
  · intro s
    show noDoubleWs (strOf (collapseWs (trimWs s.data))).data = true
    exact (collapseWsAux_spec (trimWs s.data)).2.2
  · decide

/-! ### Claim C8 — keyword filtering -/

/-- C8 (counterexample): `SELECT a.x FROM order a` creates a table node
named `order`, which is (case-insensitively) the reserved keyword `ORDER`:
table names are never keyword-filtered. -/
theorem lineage_C8_counterexample :
    isSQLKeyword "order" = true ∧
    ((generateVisualizationData "SELECT a.x FROM order a"
        (parseSQLTables "SELECT a.x FROM order a")).nodes.any
        (fun n => n.name == "order" && n.type == "table")) = true := by
  refine ⟨by decide, by decide⟩

/-- C8 (amended): keyword filtering guards exactly the bare-identifier column
path — when the cleaned SELECT expression contains no dot, a column name
inferred by `extractOriginalColumnFromExpression` passed `isValidColumnName`
and is therefore never a reserved keyword.  (Table nodes, alias nodes and
dotted-expression remainders are not keyword-filtered.) -/
theorem lineage_C8_amended (expr ic : List Char)
    (h1 : extractOriginalColumnFromExpression expr = some ic)
    (h2 : (eocfeCleanExpr expr).contains '.' = false) :
    isSQLKeyword (strOf ic) = false := by
  simp only [extractOriginalColumnFromExpression] at h1
  rw [h2] at h1
  rw [if_neg (by simp)] at h1
  by_cases hv : isValidColumnName (eocfeCleanExpr expr) = true
  · rw [if_pos hv] at h1
    have hic : ic = eocfeCleanExpr expr := (Option.some.inj h1).symm
    simp only [isValidColumnName, Bool.and_eq_true] at hv
    rw [hic]
    simpa using hv.2
  · rw [if_neg hv] at h1
    exact absurd h1 (by simp)

/-- Witness for the amended C8 at the concrete expression `name`. -/
theorem lineage_C8_amended_witness :
    extractOriginalColumnFromExpression "name".data = some "name".data ∧
    (eocfeCleanExpr "name".data).contains '.' = false ∧
    isSQLKeyword (strOf "name".data) = false :=
  ⟨by decide, by decide, lineage_C8_amended "name".data "name".data (by decide) (by decide)⟩

/-! ### Claim C9 — node ordering -/

/-- C9 (counterexample): for `SELECT a.id FROM orders a` the node kinds, in
list order, are query, table, column: the single query node comes FIRST, not
last as claimed. -/
theorem lineage_C9_counterexample :
    ((generateVisualizationData "SELECT a.id FROM orders a"
        (parseSQLTables "SELECT a.id FROM orders a")).nodes.map Node.type) =
      ["query", "table", "column"] := by
  decide

/-- C9 (amended): the node list is deterministically ordered with the query
node first, then the table nodes in parser (FROM-then-JOIN) order, then the
qualified-column nodes, then the bare/star column nodes of the SELECT loop,
then the alias nodes. -/
theorem lineage_C9_amended (sqlQuery : String) (parserTables : List String) :
    ∃ t c b a,
      (generateVisualizationData sqlQuery parserTables).nodes =
        queryNode :: (t ++ (c ++ (b ++ a))) ∧
      t.map Node.name = parserTables ∧
      (∀ n ∈ t, n.type = "table" ∧ n.originalQualifiedName = none ∧ n.isAlias = false) ∧
      (∀ n ∈ c, n.type = "column" ∧ n.isAlias = false ∧
        ∃ q, n.originalQualifiedName = some q ∧ q.data.contains '.' = true) ∧
      (∀ n ∈ b, n.type = "column" ∧ n.isAlias = false ∧
        ∃ q, n.originalQualifiedName = some q ∧ q.data.contains '.' = false) ∧
      (∀ n ∈ a, n.type = "column" ∧ n.isAlias = true ∧ n.originalQualifiedName = none) :=
  gvFinal_nodes_decomp sqlQuery parserTables

/-! ### Claim C7 machinery — the part_003 table→columns map -/

/-- The column list a table name maps to (empty when absent). -/
def colsOf (m : List (String × List String)) (k : String) : List String :=
  (lookupCols m k).getD []

theorem find?_append_of_none {p : (String × List String) → Bool}
    {m l : List (String × List String)} (h : m.find? p = none) :
    (m ++ l).find? p = l.find? p := by
  induction m with
  | nil => rfl
  | cons a t ih =>
    simp only [List.find?_cons] at h ⊢
    cases hp : p a with
    | true => rw [hp] at h; simp at h
    | false =>
      rw [hp] at h
      simpa [hp] using ih h

theorem find?_append_of_some {p : (String × List String) → Bool}
    {m l : List (String × List String)} {a : String × List String}
    (h : m.find? p = some a) : (m ++ l).find? p = some a := by
  induction m with
  | nil => simp at h
  | cons b t ih =>
    simp only [List.find?_cons] at h ⊢
    cases hp : p b with
    | true => rw [hp] at h; simpa [hp] using h
    | false =>
      rw [hp] at h
      simpa [hp] using ih h

theorem find?_map_keyfixed (f : (String × List String) → (String × List String))
    (hf : ∀ p, (f p).1 = p.1) (k : String) :
    ∀ (m : List (String × List String)),
      (m.map f).find? (fun p => p.1 == k) = (m.find? (fun p => p.1 == k)).map f := by
  intro m
  induction m with
  | nil => rfl
  | cons a t ih =>
    simp only [List.map_cons, List.find?_cons, hf a]
    cases hp : (a.1 == k) with
    | true => simp
    | false => simpa using ih

theorem any_eq_false_find?_none {m : List (String × List String)} {k : String}
    (h : m.any (fun p => p.1 == k) = false) :
    m.find? (fun p => p.1 == k) = none := by
  rw [List.find?_eq_none]
  intro p hp
  simpa using (List.any_eq_false.1 h) p hp

/-- The added column is in the map after `tcmAdd`. -/
theorem colsOf_tcmAdd_self (m : List (String × List String)) (k c : String) :
    c ∈ colsOf (tcmAdd m k c) k := by
  unfold tcmAdd colsOf lookupCols
  by_cases ha : m.any (fun p => p.1 == k) = true
  · rw [if_pos ha]
    rw [find?_map_keyfixed _ (fun p => by by_cases hk : (p.1 == k) = true <;> simp [hk]) k m]
    rcases hfm : m.find? (fun p => p.1 == k) with _ | p
    · rw [List.any_eq_true] at ha
      obtain ⟨p, hp, hpk⟩ := ha
      rw [List.find?_eq_none] at hfm
      exact absurd hpk (hfm p hp)
    · rw [hfm]
      have hpk := List.find?_some hfm
      simp only [Option.map_some', Option.getD_some]
      rw [if_pos hpk]
      by_cases hc : p.2.contains c = true
      · rw [if_pos hc]
        obtain ⟨a, ha2, hb⟩ := List.contains_iff_exists_mem_beq.1 hc
        exact (beq_iff_eq.1 hb) ▸ ha2
      · rw [if_neg hc]
        exact List.mem_append_right _ (List.mem_singleton_self c)
  · rw [if_neg ha]
    have ha2 : m.any (fun p => p.1 == k) = false := by
      rw [← Bool.not_eq_true]; exact ha
    rw [find?_append_of_none (any_eq_false_find?_none ha2)]
    simp [List.find?_cons]

/-- `tcmAdd` never removes a column from any key. -/
theorem colsOf_tcmAdd_mono {m : List (String × List String)} {k c : String}
    (k2 c2 : String) (h : c ∈ colsOf m k) : c ∈ colsOf (tcmAdd m k2 c2) k := by
  unfold colsOf lookupCols at h
  rcases hfm : m.find? (fun p => p.1 == k) with _ | p
  · rw [hfm] at h; simp at h
  · rw [hfm] at h
    simp only [Option.map_some', Option.getD_some] at h
    unfold tcmAdd colsOf lookupCols
    by_cases ha : m.any (fun p => p.1 == k2) = true
    · rw [if_pos ha]
      rw [find?_map_keyfixed _ (fun p => by by_cases hk : (p.1 == k2) = true <;> simp [hk]) k m]
      rw [hfm]
      simp only [Option.map_some', Option.getD_some]
      by_cases hk2 : (p.1 == k2) = true
      · rw [if_pos hk2]
        by_cases hc2 : p.2.contains c2 = true
        · rw [if_pos hc2]; exact h
        · rw [if_neg hc2]
          exact List.mem_append_left _ h
      · rw [if_neg hk2]; exact h
    · rw [if_neg ha]
      rw [find?_append_of_some hfm]
      simpa using h

/-- `tcmPush` never removes a column from any key. -/
theorem colsOf_tcmPush_mono {m : List (String × List String)} {k c : String}
    (k2 c2 : String) (h : c ∈ colsOf m k) : c ∈ colsOf (tcmPush m k2 c2) k := by
  unfold colsOf lookupCols at h
  rcases hfm : m.find? (fun p => p.1 == k) with _ | p
  · rw [hfm] at h; simp at h
  · rw [hfm] at h
    simp only [Option.map_some', Option.getD_some] at h
    unfold tcmPush colsOf lookupCols
    by_cases ha : m.any (fun p => p.1 == k2) = true
    · rw [if_pos ha]
      rw [find?_map_keyfixed _ (fun p => by by_cases hk : (p.1 == k2) = true <;> simp [hk]) k m]
      rw [hfm]
      simp only [Option.map_some', Option.getD_some]
      by_cases hk2 : (p.1 == k2) = true
      · rw [if_pos hk2]
        exact List.mem_append_left _ h
      · rw [if_neg hk2]; exact h
    · rw [if_neg ha]
      rw [find?_append_of_some hfm]
      simpa using h

/-- Generic fold monotonicity for column maps. -/
theorem foldl_colsOf_mono {α : Type}
    (f : List (String × List String) → α → List (String × List String))
    (hf : ∀ m x k c, c ∈ colsOf m k → c ∈ colsOf (f m x) k) :
    ∀ (xs : List α) (m : List (String × List String)) (k c : String),
      c ∈ colsOf m k → c ∈ colsOf (xs.foldl f m) k := by
  intro xs
  induction xs with
  | nil => intro m k c h; exact h
  | cons x t ih => intro m k c h; exact ih (f m x) k c (hf m x k c h)

theorem extractTCRWA_mono (e : List Char) (a : List (String × String))
    (m : List (String × List String)) (k c : String) (h : c ∈ colsOf m k) :
    c ∈ colsOf (extractTableColumnReferencesWithAliases e a m) k := by
  unfold extractTableColumnReferencesWithAliases
  refine foldl_colsOf_mono _ ?_ _ m k c h
  intro m2 r k2 c2 h2
  exact colsOf_tcmAdd_mono _ _ h2

theorem optClauseStep_mono (o : Option (List Char)) (a : List (String × String))
    (m : List (String × List String)) (k c : String) (h : c ∈ colsOf m k) :
    c ∈ colsOf (match o with
      | some w => extractTableColumnReferencesWithAliases w a m
      | none => m) k := by
  cases o with
  | none => exact h
  | some w => exact extractTCRWA_mono w a m k c h

theorem clausesWA_mono (sql : List Char) (a : List (String × String))
    (m : List (String × List String)) (k c : String) (h : c ∈ colsOf m k) :
    c ∈ colsOf (extractColumnsFromClausesWithAliases sql a m) k := by
  unfold extractColumnsFromClausesWithAliases
  refine foldl_colsOf_mono _ ?_ _ _ k c ?_
  · intro m2 oc k2 c2 h2
    exact extractTCRWA_mono _ _ _ _ _ h2
  · exact optClauseStep_mono _ _ _ _ _ (optClauseStep_mono _ _ _ _ _
      (optClauseStep_mono _ _ _ _ _ (optClauseStep_mono _ _ _ _ _ h)))

theorem ptcrSelectStep_mono (ti : List TableInfo) (am : List (String × String))
    (m : List (String × List String)) (col : List Char) (k c : String)
    (h : c ∈ colsOf m k) : c ∈ colsOf (ptcrSelectStep ti am m col) k := by
  simp only [ptcrSelectStep]
  split
  · refine foldl_colsOf_mono _ ?_ _ m k c h
    intro m2 t k2 c2 h2
    exact colsOf_tcmPush_mono _ _ h2
  · have h2 := extractTCRWA_mono (trimWs col) am m k c h
    split
    · split
      · exact colsOf_tcmAdd_mono _ _ h2
      · exact h2
    · exact h2

/-- A bare, valid SELECT item is attributed to the first FROM table. -/
theorem ptcrSelectStep_attrib (t0 : TableInfo) (rest : List TableInfo)
    (am : List (String × String)) (m : List (String × List String)) (part : List Char)
    (hdot : (trimWs part).contains '.' = false)
    (hvalid : isValidColumnNameP3 (trimWs part) = true) :
    strOf (trimWs part) ∈ colsOf (ptcrSelectStep (t0 :: rest) am m part) t0.tableName := by
  simp only [ptcrSelectStep]
  have hstar : ¬(trimWs part = "*".data) := by
    intro he
    rw [he] at hvalid
    exact absurd hvalid (by decide)
  rw [if_neg hstar]
  have hcond : (!((trimWs part).contains '.') && isValidColumnNameP3 (trimWs part)) = true := by
    rw [hdot, hvalid]
    rfl
  rw [if_pos hcond]
  show strOf (trimWs part) ∈ colsOf (tcmAdd _ t0.tableName (strOf (trimWs part))) t0.tableName
  exact colsOf_tcmAdd_self _ _ _

theorem ptcrSelectFold_attrib (t0 : TableInfo) (rest : List TableInfo)
    (am : List (String × String)) :
    ∀ (parts : List (List Char)) (m : List (String × List String)) (part : List Char),
      part ∈ parts →
      (trimWs part).contains '.' = false →
      isValidColumnNameP3 (trimWs part) = true →
      strOf (trimWs part) ∈
        colsOf (parts.foldl (ptcrSelectStep (t0 :: rest) am) m) t0.tableName := by
  intro parts
  induction parts with
  | nil => intro m part hmem; simp at hmem
  | cons p t ih =>
    intro m part hmem hdot hvalid
    rcases List.mem_cons.1 hmem with rfl | hmem
    · rw [List.foldl_cons]
      refine foldl_colsOf_mono _ ?_ t _ t0.tableName _ ?_
      · intro m2 x k2 c2 h2
        exact ptcrSelectStep_mono _ _ _ _ _ _ h2
      · exact ptcrSelectStep_attrib t0 rest am m part hdot hvalid
    · rw [List.foldl_cons]
      exact ih _ part hmem hdot hvalid

/-- C7, part 1: in `parseTableColumnRelationshipsWithAliases`, a SELECT item
that is a bare valid identifier lands in the first FROM table's column list. -/
theorem ptcr_attrib (sql : List Char) (t0 : TableInfo) (rest : List TableInfo)
    (sc part : List Char)
    (hsc : matchSelectFrom sql = some sc)
    (hpart : part ∈ splitSelectClause sc)
    (hdot : (trimWs part).contains '.' = false)
    (hvalid : isValidColumnNameP3 (trimWs part) = true) :
    strOf (trimWs part) ∈
      colsOf (parseTableColumnRelationshipsWithAliases sql (t0 :: rest)) t0.tableName := by
  unfold parseTableColumnRelationshipsWithAliases
  rw [hsc]
  exact clausesWA_mono _ _ _ _ _
    (ptcrSelectFold_attrib t0 rest _ _ [] part hpart hdot hvalid)

/-! ### Claim C7 machinery — the provides loop -/

/-- A `table_i → column_j` provides edge is present. -/
def hasProvides (es : List Edge) (i j : Nat) : Bool :=
  es.any (fun x => x.source == ("table_" ++ toString i)
    && x.target == ("column_" ++ toString j) && x.type == "provides")

theorem hasProvides_append {es : List Edge} {i j : Nat} (l : List Edge)
    (h : hasProvides es i j = true) : hasProvides (es ++ l) i j = true := by
  simp only [hasProvides, List.any_append, Bool.or_eq_true]
  exact Or.inl h

theorem cprColStep_shape (i : Nat) (columns : List String) (es : List Edge)
    (c : String) : ∃ l, cprColStep i columns es c = es ++ l := by
  simp only [cprColStep]
  split
  · exact ⟨[], by simp⟩
  · split
    · exact ⟨[], by simp⟩
    · exact ⟨[_], rfl⟩

theorem foldl_edgelist_shape {α : Type} (f : List Edge → α → List Edge)
    (hf : ∀ es x, ∃ l, f es x = es ++ l) :
    ∀ (xs : List α) (es : List Edge), ∃ l, xs.foldl f es = es ++ l := by
  intro xs
  induction xs with
  | nil => intro es; exact ⟨[], by simp⟩
  | cons x t ih =>
    intro es
    obtain ⟨l1, h1⟩ := hf es x
    obtain ⟨l2, h2⟩ := ih (f es x)
    exact ⟨l1 ++ l2, by rw [List.foldl_cons, h2, h1, List.append_assoc]⟩

theorem cprEntryStep_shape (tables columns : List String) (es : List Edge)
    (entry : String × List String) :
    ∃ l, cprEntryStep tables columns es entry = es ++ l := by
  simp only [cprEntryStep]
  split
  · exact ⟨[], by simp⟩
  · exact foldl_edgelist_shape _ (fun es2 c => cprColStep_shape _ columns es2 c)
      entry.2 es

/-- Processing a column present in `columns` guarantees the provides edge. -/
theorem cprColStep_insert (i : Nat) (columns : List String) (es : List Edge)
    (c : String) (j : Nat)
    (hj : columns.findIdx? (fun x => strLower x == strLower c) = some j) :
    hasProvides (cprColStep i columns es c) i j = true := by
  simp only [cprColStep]
  rw [hj]
  dsimp only
  by_cases hdup : (es.any (fun x => x.source == ("table_" ++ toString i)
      && x.target == ("column_" ++ toString j) && x.type == "provides")) = true
  · rw [if_pos hdup]
    exact hdup
  · rw [if_neg hdup]
    simp [hasProvides, List.any_append]

theorem cprColFold_insert (i : Nat) (columns : List String) :
    ∀ (cols : List String) (es : List Edge) (c : String) (j : Nat),
      c ∈ cols →
      columns.findIdx? (fun x => strLower x == strLower c) = some j →
      hasProvides (cols.foldl (cprColStep i columns) es) i j = true := by
  intro cols
  induction cols with
  | nil => intro es c j hmem; simp at hmem
  | cons c0 t ih =>
    intro es c j hmem hj
    rcases List.mem_cons.1 hmem with rfl | hmem
    · rw [List.foldl_cons]
      obtain ⟨l, hl⟩ := foldl_edgelist_shape (cprColStep i columns)
        (fun es2 x => cprColStep_shape i columns es2 x) t (cprColStep i columns es c)
      rw [hl]
      exact hasProvides_append l (cprColStep_insert i columns es c j hj)
    · rw [List.foldl_cons]
      exact ih _ c j hmem hj

theorem cprEntryStep_insert (tables columns : List String) (es : List Edge)
    (entry : String × List String) (i j : Nat) (c : String)
    (hi : tables.findIdx? (fun t => strLower t == strLower entry.1) = some i)
    (hc : c ∈ entry.2)
    (hj : columns.findIdx? (fun x => strLower x == strLower c) = some j) :
    hasProvides (cprEntryStep tables columns es entry) i j = true := by
  simp only [cprEntryStep]
  rw [hi]
  exact cprColFold_insert i columns entry.2 es c j hc hj

theorem createProvides_insert (tables columns : List String) :
    ∀ (m : List (String × List String)) (es : List Edge)
      (entry : String × List String) (i j : Nat) (c : String),
      entry ∈ m →
      tables.findIdx? (fun t => strLower t == strLower entry.1) = some i →
      c ∈ entry.2 →
      columns.findIdx? (fun x => strLower x == strLower c) = some j →
      hasProvides (createProvidesRelationships m tables columns es) i j = true := by
  intro m
  induction m with
  | nil => intro es entry i j c hmem; simp at hmem
  | cons e0 t ih =>
    intro es entry i j c hmem hi hc hj
    rcases List.mem_cons.1 hmem with rfl | hmem
    · show hasProvides (t.foldl (cprEntryStep tables columns)
        (cprEntryStep tables columns es entry)) i j = true
      obtain ⟨l, hl⟩ := foldl_edgelist_shape (cprEntryStep tables columns)
        (fun es2 x => cprEntryStep_shape tables columns es2 x) t
        (cprEntryStep tables columns es entry)
      rw [hl]
      exact hasProvides_append l (cprEntryStep_insert tables columns es entry i j c hi hc hj)
    · show hasProvides (t.foldl (cprEntryStep tables columns)
        (cprEntryStep tables columns es e0)) i j = true
      exact ih _ entry i j c hmem hi hc hj

/-- A member of a key's column list comes from an entry of the map. -/
theorem colsOf_entry {m : List (String × List String)} {k c : String}
    (h : c ∈ colsOf m k) : ∃ entry ∈ m, entry.1 = k ∧ c ∈ entry.2 := by
  unfold colsOf lookupCols at h
  rcases hfm : m.find? (fun p => p.1 == k) with _ | p
  · rw [hfm] at h; simp at h
  · rw [hfm] at h
    simp only [Option.map_some', Option.getD_some] at h
    have hpk := List.find?_some hfm
    exact ⟨p, List.mem_of_find?_eq_some hfm, beq_iff_eq.1 hpk, h⟩

theorem findIdx?_head {p : String → Bool} {x : String} {xs : List String}
    (h : p x = true) : (x :: xs).findIdx? p = some 0 := by
  simp [List.findIdx?_cons, h]

/-- C7: when a SELECT projection item is a bare identifier (no dot) that is a
valid column name (not a reserved keyword), `parseTableColumnRelationshipsWithAliases`
attributes it to the first table of the table list (the first FROM table),
and the provides loop of `createProvidesRelationships` then emits a
`provides` edge from that table's node (`table_0`) to the column's node. -/
theorem lineage_C7_unqualified_first_table (sql : List Char) (t0 : TableInfo)
    (rest : List TableInfo) (sc part : List Char) (tables columns : List String)
    (edges0 : List Edge) (j : Nat)
    (hsc : matchSelectFrom sql = some sc)
    (hpart : part ∈ splitSelectClause sc)
    (hdot : (trimWs part).contains '.' = false)
    (hvalid : isValidColumnNameP3 (trimWs part) = true)
    (htbl : tables.head? = some t0.tableName)
    (hcol : columns.findIdx? (fun x => strLower x == strLower (strOf (trimWs part)))
      = some j) :
    strOf (trimWs part) ∈
      colsOf (parseTableColumnRelationshipsWithAliases sql (t0 :: rest)) t0.tableName
    ∧ hasProvides (createProvidesRelationships
        (parseTableColumnRelationshipsWithAliases sql (t0 :: rest))
        tables columns edges0) 0 j = true := by
  have hattr := ptcr_attrib sql t0 rest sc part hsc hpart hdot hvalid
  refine ⟨hattr, ?_⟩
  obtain ⟨entry, hmem, hkey, hc⟩ := colsOf_entry hattr
  cases tables with
  | nil => simp at htbl
  | cons th tt =>
    have hth : th = t0.tableName := by simpa using htbl
    subst hth
    have hidx : (t0.tableName :: tt).findIdx?
        (fun t => strLower t == strLower entry.1) = some 0 := by
      apply findIdx?_head
      simp [hkey]
    exact createProvides_insert (t0.tableName :: tt) columns
      (parseTableColumnRelationshipsWithAliases sql (t0 :: rest)) edges0 entry 0 j
      (strOf (trimWs part)) hmem hidx hc hcol

/-- Witness for C7 at `SELECT name FROM users`. -/
theorem lineage_C7_witness :
    strOf (trimWs "name".data) ∈
      colsOf (parseTableColumnRelationshipsWithAliases "SELECT name FROM users".data
        [⟨"users", "users", "users"⟩]) "users"
    ∧ hasProvides (createProvidesRelationships
        (parseTableColumnRelationshipsWithAliases "SELECT name FROM users".data
          [⟨"users", "users", "users"⟩]) ["users"] ["name"] []) 0 0 = true :=
  lineage_C7_unqualified_first_table "SELECT name FROM users".data
    ⟨"users", "users", "users"⟩ [] "name".data "name".data ["users"] ["name"] [] 0
    (by decide) (by decide) (by decide) (by decide) (by decide) (by decide)

end Lineage
